import Mathlib

/-!
A lock-striped hash table (`hash-table-v2.c`).

Shallow embedding of `src/hash-table-v2.c`.

* A key (`const char *`) is an `Option String`: `none` is the null pointer,
  `some s` points to the NUL-terminated bytes `s`; `strcmp(a, b) == 0` is
  equality of the pointed-to strings.
* A `uint32_t` value is a `Nat`; the table never computes with values.
* `HASH_TABLE_CAPACITY` and `bernstein_hash` are declared in
  `hash-table-base.h`; they are the parameters `cap` (with `0 < cap`) and
  `hash`.  The hash returns a `uint32_t`, so the embedding reduces it
  modulo `2 ^ 32` before it is used.
* The bucket array `entries[HASH_TABLE_CAPACITY]` is a function `Fin cap → _`.
* A pointer into a chain (`struct list_entry *`) is the position of the node
  in the chain, counted from the head; `NULL` is `none`.
* The pthread mutex is explicit state: the thread that owns it, if any.
-/

namespace HashTableV2

/-! ## Environment: errno codes and the error-checking mutex -/

/-- Value of `EINVAL` in `<errno.h>`. -/
def EINVAL : Int := 22

/-- Value of `EDEADLK` in `<errno.h>`. -/
def EDEADLK : Int := 35

/-- Value of `EPERM` in `<errno.h>`. -/
def EPERM : Int := 1

/-- The two mutex calls the table makes, over mutex states of type `μ`.
`lock tid m` is `pthread_mutex_lock` called by thread `tid`: `none` when the
call does not return, otherwise the return code and the new state.
`unlock tid m` is `pthread_mutex_unlock`. -/
structure Pthread (μ : Type) where
  lock : Nat → μ → Option (Int × μ)
  unlock : Nat → μ → Int × μ

/-- State of an initialised `pthread_mutex_t` of type
`PTHREAD_MUTEX_ERRORCHECK`: the thread that holds it, if any. -/
structure pthread_mutex_t where
  owner : Option Nat
  deriving DecidableEq, Repr

/-- The call `pthread_mutex_lock` by thread `tid` on an error-checking mutex:
a free mutex is taken and `0` returned; relocking by the owner returns
`EDEADLK`; when another thread holds the mutex the call does not return
(`none`). -/
def pthread_mutex_lock (tid : Nat) (m : pthread_mutex_t) : Option (Int × pthread_mutex_t) :=
  match m.owner with
  | none => some (0, ⟨some tid⟩)
  | some o => if o = tid then some (EDEADLK, m) else none

/-- The call `pthread_mutex_unlock` by thread `tid` on an error-checking
mutex: the owner releases it and gets `0`; any other caller gets `EPERM`. -/
def pthread_mutex_unlock (tid : Nat) (m : pthread_mutex_t) : Int × pthread_mutex_t :=
  if m.owner = some tid then (0, ⟨none⟩) else (EPERM, m)

/-- The error-checking mutex that `hash_table_v2_create` sets up. -/
def errorcheck : Pthread pthread_mutex_t :=
  ⟨pthread_mutex_lock, pthread_mutex_unlock⟩

/-! ## Data model -/

/-- The C type `struct list_entry`: the key pointer and the value; the `SLIST_ENTRY`
link is the position in the enclosing list. -/
structure list_entry where
  key : String
  value : Nat
  deriving DecidableEq, Repr

/-- The C type `struct hash_table_entry`: one bucket, a chain (head first) and its
mutex. -/
structure hash_table_entry (μ : Type) where
  list_head : List list_entry
  mutex : μ

/-- The C type `struct hash_table_v2`: the array of `HASH_TABLE_CAPACITY` buckets. -/
structure hash_table_v2 (μ : Type) (cap : Nat) where
  entries : Fin cap → hash_table_entry μ

/-- How a call ends. -/
inductive Status where
  /-- the function returned to its caller -/
  | returned
  /-- an `assert` failed: the process aborts -/
  | assert_failed
  /-- `exit(1)` was called -/
  | exited
  /-- `pthread_mutex_lock` never returns: another thread holds the mutex -/
  | blocked
  /-- the `for (;;)` lock loop is still retrying when the fuel runs out -/
  | spinning
  deriving DecidableEq, Repr

/-- Result of a read-only call: a returned value or a failed assertion. -/
inductive Result (α : Type) where
  | ok : α → Result α
  | assert_failed : Result α
  deriving DecidableEq, Repr

/-- The calls a function makes on bucket `i`, in program order. -/
inductive Event where
  /-- `pthread_mutex_lock` on bucket `i` returned `rc` -/
  | lock (i : Nat) (rc : Int)
  /-- `pthread_mutex_lock` on bucket `i` did not return -/
  | lock_wait (i : Nat)
  /-- `pthread_mutex_unlock` on bucket `i` returned `rc` -/
  | unlock (i : Nat) (rc : Int)
  /-- `get_list_entry` walked the chain of bucket `i` -/
  | scan (i : Nat)
  /-- `list_entry->value = value` on a node of bucket `i` -/
  | store (i : Nat)
  /-- `SLIST_INSERT_HEAD` on the chain of bucket `i` -/
  | insert_head (i : Nat)
  deriving DecidableEq, Repr

/-- Bucket an event is about. -/
def Event.bucket : Event → Nat
  | Event.lock i _ => i
  | Event.lock_wait i => i
  | Event.unlock i _ => i
  | Event.scan i => i
  | Event.store i => i
  | Event.insert_head i => i

/-- What a call of `hash_table_v2_add_entry` leaves behind: how it ended,
the table at that point, and the calls it made. -/
structure Exec (μ : Type) (cap : Nat) where
  status : Status
  table : hash_table_v2 μ cap
  trace : List Event

/-- Write to `entries[idx].mutex`. -/
def hash_table_v2.set_mutex {μ : Type} {cap : Nat} (ht : hash_table_v2 μ cap)
    (idx : Fin cap) (m : μ) : hash_table_v2 μ cap :=
  ⟨Function.update ht.entries idx ⟨(ht.entries idx).list_head, m⟩⟩

/-- Write to the chain of `entries[idx]`. -/
def hash_table_v2.set_list {μ : Type} {cap : Nat} (ht : hash_table_v2 μ cap)
    (idx : Fin cap) (l : List list_entry) : hash_table_v2 μ cap :=
  ⟨Function.update ht.entries idx ⟨l, (ht.entries idx).mutex⟩⟩

/-! ## Operations -/

/-- Function `hash_table_v2_create`: `calloc`, the mutex attribute set-up, one
`SLIST_INIT` and `pthread_mutex_init` per bucket, the attribute tear-down.
The outcomes of the library calls are the arguments: `calloc_ok` says that
`calloc` returned non-null, the others are return codes; `fresh` is the
state `pthread_mutex_init` leaves a mutex in. -/
def hash_table_v2_create {μ : Type} (fresh : μ) (cap : Nat) (calloc_ok : Bool)
    (rc_attr_init rc_settype : Int) (rc_mutex_init : Fin cap → Int) (rc_attr_destroy : Int) :
    Status × Option (hash_table_v2 μ cap) :=
  if !calloc_ok then (Status.assert_failed, none)
  else if rc_attr_init ≠ 0 then (Status.exited, none)
  else if rc_settype ≠ 0 then (Status.exited, none)
  else if ∃ i : Fin cap, rc_mutex_init i ≠ 0 then (Status.exited, none)
  else if rc_attr_destroy ≠ 0 then (Status.exited, none)
  else (Status.returned, some ⟨fun _ => ⟨[], fresh⟩⟩)

/-- Function `get_hash_table_entry`: the bucket of a key, as its index in `entries`;
the assertion fails on a null key. -/
def get_hash_table_entry (hash : String → Nat) (cap : Nat) (hcap : 0 < cap)
    (key : Option String) : Result (Fin cap) :=
  match key with
  | none => Result.assert_failed
  | some k => Result.ok ⟨(hash k % 2 ^ 32) % cap, Nat.mod_lt _ hcap⟩

/-- The `SLIST_FOREACH` loop of `get_list_entry`: position of the first node
whose key compares equal to `key`, `none` for `NULL`. -/
def slist_find (key : String) : List list_entry → Option Nat
  | [] => none
  | e :: rest =>
    if e.key = key then some 0
    else match slist_find key rest with
      | none => none
      | some i => some (i + 1)

/-- Function `get_list_entry`: asserts the key is non-null, then scans the chain. -/
def get_list_entry (key : Option String) (list_head : List list_entry) :
    Result (Option Nat) :=
  match key with
  | none => Result.assert_failed
  | some k => Result.ok (slist_find k list_head)

/-- Function `hash_table_v2_contains`: the bucket of the key, the scan of
its chain, and the test `list_entry != NULL`. -/
def hash_table_v2_contains {μ : Type} (hash : String → Nat) (cap : Nat) (hcap : 0 < cap)
    (hash_table : hash_table_v2 μ cap) (key : Option String) : Result Bool :=
  match get_hash_table_entry hash cap hcap key with
  | Result.assert_failed => Result.assert_failed
  | Result.ok idx =>
    match get_list_entry key (hash_table.entries idx).list_head with
    | Result.assert_failed => Result.assert_failed
    | Result.ok list_entry => Result.ok list_entry.isSome

/-- Function `hash_table_v2_get_value`: `assert(list_entry != NULL)` and the read of
`list_entry->value`.  The last branch is a pointer that is not a node of the
chain, which `get_list_entry` never returns (`slist_find_lt`). -/
def hash_table_v2_get_value {μ : Type} (hash : String → Nat) (cap : Nat) (hcap : 0 < cap)
    (hash_table : hash_table_v2 μ cap) (key : Option String) : Result Nat :=
  match get_hash_table_entry hash cap hcap key with
  | Result.assert_failed => Result.assert_failed
  | Result.ok idx =>
    match get_list_entry key (hash_table.entries idx).list_head with
    | Result.assert_failed => Result.assert_failed
    | Result.ok none => Result.assert_failed
    | Result.ok (some i) =>
      match (hash_table.entries idx).list_head[i]? with
      | some e => Result.ok e.value
      | none => Result.assert_failed

/-- The assignment `list_entry->value = value` for the node at position `i` of a chain. -/
def store_value : List list_entry → Nat → Nat → List list_entry
  | [], _, _ => []
  | e :: rest, 0, value => ⟨e.key, value⟩ :: rest
  | e :: rest, i + 1, value => e :: store_value rest i value

/-- The loop `for (;;) { rc = pthread_mutex_lock(..); if (rc == 0) break;
if (rc == EINVAL) exit(1); }` on the mutex of bucket `i`, run for at most
`fuel` iterations.  `Status.returned` is the `break`. -/
def lock_loop {μ : Type} (P : Pthread μ) (tid : Nat) (i : Nat) :
    Nat → μ → Status × μ × List Event
  | 0, m => (Status.spinning, m, [])
  | fuel + 1, m =>
    match P.lock tid m with
    | none => (Status.blocked, m, [Event.lock_wait i])
    | some (rc, m') =>
      if rc = 0 then (Status.returned, m', [Event.lock i rc])
      else if rc = EINVAL then (Status.exited, m', [Event.lock i rc])
      else
        let r := lock_loop P tid i fuel m'
        (r.1, r.2.1, Event.lock i rc :: r.2.2)

/-- Function `hash_table_v2_add_entry`, called by thread `tid`, each lock loop run for
at most `fuel` iterations.  The `calloc` of the new node is taken to succeed
(the code does not test it). -/
def hash_table_v2_add_entry {μ : Type} (P : Pthread μ) (hash : String → Nat) (cap : Nat)
    (hcap : 0 < cap) (tid fuel : Nat) (hash_table : hash_table_v2 μ cap)
    (key : Option String) (value : Nat) : Exec μ cap :=
  match get_hash_table_entry hash cap hcap key, key with
  | Result.assert_failed, _ => ⟨Status.assert_failed, hash_table, []⟩
  | Result.ok _, none => ⟨Status.assert_failed, hash_table, []⟩
  | Result.ok idx, some k =>
    match lock_loop P tid idx fuel (hash_table.entries idx).mutex with
    | (Status.returned, m1, t1) =>
      let ht1 := hash_table.set_mutex idx m1
      match get_list_entry key (ht1.entries idx).list_head with
      | Result.assert_failed => ⟨Status.assert_failed, ht1, t1 ++ [Event.scan idx]⟩
      | Result.ok (some i) =>
        let ht2 := ht1.set_list idx (store_value (ht1.entries idx).list_head i value)
        let u := P.unlock tid (ht2.entries idx).mutex
        ⟨if u.1 ≠ 0 then Status.exited else Status.returned, ht2.set_mutex idx u.2,
          t1 ++ [Event.scan idx, Event.store idx, Event.unlock idx u.1]⟩
      | Result.ok none =>
        let u := P.unlock tid (ht1.entries idx).mutex
        let ht2 := ht1.set_mutex idx u.2
        let t2 := t1 ++ [Event.scan idx, Event.unlock idx u.1]
        if u.1 ≠ 0 then ⟨Status.exited, ht2, t2⟩
        else
          let list_entry : list_entry := ⟨k, value⟩
          match lock_loop P tid idx fuel (ht2.entries idx).mutex with
          | (Status.returned, m3, t3) =>
            let ht3 := ht2.set_mutex idx m3
            let ht4 := ht3.set_list idx (list_entry :: (ht3.entries idx).list_head)
            let u' := P.unlock tid (ht4.entries idx).mutex
            ⟨if u'.1 ≠ 0 then Status.exited else Status.returned, ht4.set_mutex idx u'.2,
              t2 ++ t3 ++ [Event.insert_head idx, Event.unlock idx u'.1]⟩
          | (st, m3, t3) => ⟨st, ht2.set_mutex idx m3, t2 ++ t3⟩
    | (st, m1, t1) => ⟨st, hash_table.set_mutex idx m1, t1⟩

/-! ## Single-threaded use -/

/-- Bucket index of a non-null key: what `get_hash_table_entry` computes. -/
def bucket (hash : String → Nat) (cap : Nat) (hcap : 0 < cap) (k : String) : Fin cap :=
  ⟨(hash k % 2 ^ 32) % cap, Nat.mod_lt _ hcap⟩

/-- Table states of a single-threaded program: what `hash_table_v2_create`
returns, and what a returning call of `hash_table_v2_add_entry` leaves. -/
inductive Reachable (hash : String → Nat) (cap : Nat) (hcap : 0 < cap) :
    hash_table_v2 pthread_mutex_t cap → Prop where
  | create (calloc_ok : Bool) (rc_attr_init rc_settype : Int) (rc_mutex_init : Fin cap → Int)
      (rc_attr_destroy : Int) (T : hash_table_v2 pthread_mutex_t cap) :
      hash_table_v2_create (⟨none⟩ : pthread_mutex_t) cap calloc_ok rc_attr_init rc_settype
        rc_mutex_init rc_attr_destroy = (Status.returned, some T) →
      Reachable hash cap hcap T
  | add_entry (T : hash_table_v2 pthread_mutex_t cap) (tid fuel : Nat) (key : Option String)
      (value : Nat) :
      Reachable hash cap hcap T →
      (hash_table_v2_add_entry errorcheck hash cap hcap tid fuel T key value).status
        = Status.returned →
      Reachable hash cap hcap
        (hash_table_v2_add_entry errorcheck hash cap hcap tid fuel T key value).table

/-- A sequence of `add_entry` calls by thread `tid`, stopping at the first
call that does not return. -/
def add_entries (hash : String → Nat) (cap : Nat) (hcap : 0 < cap) (tid fuel : Nat) :
    hash_table_v2 pthread_mutex_t cap → List (String × Nat) →
    Status × hash_table_v2 pthread_mutex_t cap
  | T, [] => (Status.returned, T)
  | T, (k, v) :: rest =>
    let E := hash_table_v2_add_entry errorcheck hash cap hcap tid fuel T (some k) v
    if E.status = Status.returned then add_entries hash cap hcap tid fuel E.table rest
    else (E.status, E.table)

/-- Number of nodes with key `K` in the whole table. -/
def key_count {μ : Type} {cap : Nat} (T : hash_table_v2 μ cap) (K : String) : Nat :=
  ((List.finRange cap).map
    (fun i => ((T.entries i).list_head.filter (fun e => e.key = K)).length)).sum

/-- Number of nodes in the whole table. -/
def node_count {μ : Type} {cap : Nat} (T : hash_table_v2 μ cap) : Nat :=
  ((List.finRange cap).map (fun i => (T.entries i).list_head.length)).sum

/-- Value of the first node of a chain whose key is `k`. -/
def chain_value (k : String) : List list_entry → Option Nat
  | [] => none
  | e :: rest => if e.key = k then some e.value else chain_value k rest

/-- Effect of a returning `add_entry k v` on the chain of the key's bucket:
the first node with key `k` gets the value, or a new node goes to the head. -/
def chain_add (k : String) (v : Nat) (l : List list_entry) : List list_entry :=
  match slist_find k l with
  | some i => store_value l i v
  | none => ⟨k, v⟩ :: l

/-- Value of the last call with key `K` in a sequence of calls. -/
def last_write (K : String) : List (String × Nat) → Option Nat
  | [] => none
  | (k, v) :: rest =>
    match last_write K rest with
    | some w => some w
    | none => if k = K then some v else none

/-- The finite map with last-write-wins semantics that the specification
describes: insert-or-update of each `(key, value)` in turn, starting from
the empty map. -/
def finite_map_after (ops : List (String × Nat)) : String → Option Nat :=
  ops.foldl (fun m op => fun K => if K = op.1 then some op.2 else m K) (fun _ => none)

/-- What holds of every table of a single-threaded program between calls:
no mutex is held, every node sits in the bucket of its key, and no chain
holds a key twice. -/
structure Inv (hash : String → Nat) (cap : Nat) (hcap : 0 < cap)
    (T : hash_table_v2 pthread_mutex_t cap) : Prop where
  free : ∀ i, (T.entries i).mutex = ⟨none⟩
  placed : ∀ i, ∀ e ∈ (T.entries i).list_head, bucket hash cap hcap e.key = i
  nodup : ∀ i, ((T.entries i).list_head.map list_entry.key).Nodup

/-! ## Threads: `hash_table_v2_add_entry` statement by statement -/

/-- Where a thread running `hash_table_v2_add_entry` stands. -/
inductive Pc where
  /-- line 102: about to call `get_hash_table_entry` -/
  | entry
  /-- lines 104-114: about to call `pthread_mutex_lock` in the first loop -/
  | lock1
  /-- lines 115-119: about to call `get_list_entry` and test its result -/
  | scan
  /-- line 120: about to write `value` to the node at position `i` -/
  | store (i : Nat)
  /-- lines 121-127: about to unlock on the update path -/
  | unlock_found
  /-- lines 129-134: about to unlock after the key was not found -/
  | unlock_absent
  /-- lines 136-138: about to allocate and fill the new node -/
  | alloc
  /-- lines 139-149: about to call `pthread_mutex_lock` in the second loop -/
  | lock2
  /-- line 150: about to `SLIST_INSERT_HEAD` -/
  | insert
  /-- lines 151-156: about to unlock on the insert path -/
  | unlock_insert
  /-- the call has returned -/
  | done
  /-- an assertion failed -/
  | aborted
  /-- `exit(1)` was called -/
  | exited
  deriving DecidableEq, Repr

/-- A thread in a call `hash_table_v2_add_entry(hash_table, key, value)`. -/
structure Thread where
  pc : Pc
  key : Option String
  value : Nat
  deriving DecidableEq, Repr

/-- The call has returned. -/
def Pc.finished (pc : Pc) : Bool := pc = Pc.done

/-- The thread has ended the process (`assert` or `exit`). -/
def Pc.crashed (pc : Pc) : Bool := pc = Pc.aborted || pc = Pc.exited

/-- The thread is between a successful `pthread_mutex_lock` and the matching
`pthread_mutex_unlock`. -/
def Pc.in_critical (pc : Pc) : Bool :=
  match pc with
  | Pc.scan | Pc.store _ | Pc.unlock_found | Pc.unlock_absent | Pc.insert | Pc.unlock_insert => true
  | _ => false

/-- One statement of `hash_table_v2_add_entry` executed by thread `tid`.
`none` when the thread cannot move: its `pthread_mutex_lock` does not return,
or it has returned or ended the process. -/
def thread_step {μ : Type} (P : Pthread μ) (hash : String → Nat) (cap : Nat) (hcap : 0 < cap)
    (tid : Nat) (th : Thread) (T : hash_table_v2 μ cap) : Option (Thread × hash_table_v2 μ cap) :=
  match get_hash_table_entry hash cap hcap th.key, th.key with
  | Result.assert_failed, _ =>
    match th.pc with
    | Pc.entry => some ({ th with pc := Pc.aborted }, T)
    | _ => none
  | Result.ok _, none => none
  | Result.ok idx, some k =>
    match th.pc with
    | Pc.entry => some ({ th with pc := Pc.lock1 }, T)
    | Pc.lock1 =>
      match P.lock tid (T.entries idx).mutex with
      | none => none
      | some (rc, m) =>
        some ({ th with pc := if rc = 0 then Pc.scan else if rc = EINVAL then Pc.exited
                              else Pc.lock1 }, T.set_mutex idx m)
    | Pc.scan =>
      match get_list_entry th.key (T.entries idx).list_head with
      | Result.assert_failed => some ({ th with pc := Pc.aborted }, T)
      | Result.ok (some i) => some ({ th with pc := Pc.store i }, T)
      | Result.ok none => some ({ th with pc := Pc.unlock_absent }, T)
    | Pc.store i =>
      some ({ th with pc := Pc.unlock_found },
        T.set_list idx (store_value (T.entries idx).list_head i th.value))
    | Pc.unlock_found =>
      let u := P.unlock tid (T.entries idx).mutex
      some ({ th with pc := if u.1 ≠ 0 then Pc.exited else Pc.done }, T.set_mutex idx u.2)
    | Pc.unlock_absent =>
      let u := P.unlock tid (T.entries idx).mutex
      some ({ th with pc := if u.1 ≠ 0 then Pc.exited else Pc.alloc }, T.set_mutex idx u.2)
    | Pc.alloc => some ({ th with pc := Pc.lock2 }, T)
    | Pc.lock2 =>
      match P.lock tid (T.entries idx).mutex with
      | none => none
      | some (rc, m) =>
        some ({ th with pc := if rc = 0 then Pc.insert else if rc = EINVAL then Pc.exited
                              else Pc.lock2 }, T.set_mutex idx m)
    | Pc.insert =>
      some ({ th with pc := Pc.unlock_insert },
        T.set_list idx (⟨k, th.value⟩ :: (T.entries idx).list_head))
    | Pc.unlock_insert =>
      let u := P.unlock tid (T.entries idx).mutex
      some ({ th with pc := if u.1 ≠ 0 then Pc.exited else Pc.done }, T.set_mutex idx u.2)
    | Pc.done => none
    | Pc.aborted => none
    | Pc.exited => none

/-- Threads sharing one table; a thread's id is its position in `threads`. -/
structure System (μ : Type) (cap : Nat) where
  threads : List Thread
  table : hash_table_v2 μ cap

/-- Thread `tid` executes its next statement.  `none` when it cannot: there
is no such thread, the process has ended, the thread has returned, or its
`pthread_mutex_lock` does not return. -/
def sys_step {μ : Type} (P : Pthread μ) (hash : String → Nat) (cap : Nat) (hcap : 0 < cap)
    (s : System μ cap) (tid : Nat) : Option (System μ cap) :=
  if s.threads.any (fun th => th.pc.crashed) then none
  else
    match s.threads[tid]? with
    | none => none
    | some th =>
      match thread_step P hash cap hcap tid th s.table with
      | none => none
      | some r => some ⟨s.threads.set tid r.1, r.2⟩

/-- An interleaving: the threads named by the schedule move one statement
each, in that order; `none` if one of them cannot move when its turn comes. -/
def sys_run {μ : Type} (P : Pthread μ) (hash : String → Nat) (cap : Nat) (hcap : 0 < cap) :
    System μ cap → List Nat → Option (System μ cap)
  | s, [] => some s
  | s, tid :: rest =>
    match sys_step P hash cap hcap s tid with
    | none => none
    | some s' => sys_run P hash cap hcap s' rest

/-- Thread `tid` is stuck in `pthread_mutex_lock`: it exists, the process is
alive, the thread has not returned, and it cannot move. -/
def sys_blocked {μ : Type} (P : Pthread μ) (hash : String → Nat) (cap : Nat) (hcap : 0 < cap)
    (s : System μ cap) (tid : Nat) : Bool :=
  match s.threads[tid]? with
  | none => false
  | some th =>
    !(s.threads.any (fun th => th.pc.crashed)) && !th.pc.finished
      && (thread_step P hash cap hcap tid th s.table).isNone

/-- Two threads calling `add_entry` with keys `K1` and `K2`: neither has
ended the process, and each holds the mutex of its key's bucket exactly while
it is inside one of its critical sections. -/
def two_threads_inv (hash : String → Nat) (cap : Nat) (hcap : 0 < cap) (K1 K2 : String)
    (V1 V2 : Nat) (s : System pthread_mutex_t cap) : Prop :=
  ∃ pc0 pc1, s.threads = [⟨pc0, some K1, V1⟩, ⟨pc1, some K2, V2⟩] ∧
    pc0.crashed = false ∧ pc1.crashed = false ∧
    (s.table.entries (bucket hash cap hcap K1)).mutex
      = ⟨if pc0.in_critical then some 0 else none⟩ ∧
    (s.table.entries (bucket hash cap hcap K2)).mutex
      = ⟨if pc1.in_critical then some 1 else none⟩

/-! ## Lookups with their effects, scripted mutexes, lock discipline -/

/-- What a lookup leaves behind: its result, the table when it ends, and the
calls it made. -/
structure Lookup (μ : Type) (cap : Nat) (α : Type) where
  result : Result α
  table : hash_table_v2 μ cap
  trace : List Event

/-- Function `hash_table_v2_contains` with its effects: the body makes no
store and no mutex call, so the table is handed back as it came and the only
event is the scan of `get_list_entry`. -/
def hash_table_v2_contains_exec {μ : Type} (hash : String → Nat) (cap : Nat) (hcap : 0 < cap)
    (hash_table : hash_table_v2 μ cap) (key : Option String) : Lookup μ cap Bool :=
  match get_hash_table_entry hash cap hcap key with
  | Result.assert_failed => ⟨Result.assert_failed, hash_table, []⟩
  | Result.ok idx =>
    match get_list_entry key (hash_table.entries idx).list_head with
    | Result.assert_failed => ⟨Result.assert_failed, hash_table, []⟩
    | Result.ok list_entry => ⟨Result.ok list_entry.isSome, hash_table, [Event.scan idx]⟩

/-- Function `hash_table_v2_get_value` with its effects: the scan, the
assertion, and the read of `list_entry->value`; no store, no mutex call. -/
def hash_table_v2_get_value_exec {μ : Type} (hash : String → Nat) (cap : Nat) (hcap : 0 < cap)
    (hash_table : hash_table_v2 μ cap) (key : Option String) : Lookup μ cap Nat :=
  match get_hash_table_entry hash cap hcap key with
  | Result.assert_failed => ⟨Result.assert_failed, hash_table, []⟩
  | Result.ok idx =>
    match get_list_entry key (hash_table.entries idx).list_head with
    | Result.assert_failed => ⟨Result.assert_failed, hash_table, []⟩
    | Result.ok none => ⟨Result.assert_failed, hash_table, [Event.scan idx]⟩
    | Result.ok (some i) =>
      match (hash_table.entries idx).list_head[i]? with
      | some e => ⟨Result.ok e.value, hash_table, [Event.scan idx]⟩
      | none => ⟨Result.assert_failed, hash_table, [Event.scan idx]⟩

/-- A mutex whose calls return prescribed codes: the state is the sequence of
codes still to come, and each `pthread_mutex_lock` or `pthread_mutex_unlock`
on it returns the next one. -/
def scripted : Pthread (Nat → Int) :=
  ⟨fun _ s => some (s 0, fun n => s (n + 1)), fun _ s => (s 0, fun n => s (n + 1))⟩

/-- The events of `n` successive `pthread_mutex_lock` calls on bucket `b`
that return the codes `s 0`, ..., `s (n - 1)`. -/
def lock_events (b : Nat) : Nat → (Nat → Int) → List Event
  | 0, _ => []
  | n + 1, s => Event.lock b (s 0) :: lock_events b n (fun i => s (i + 1))

/-- A lock-acquire code that is neither success nor `EINVAL`. -/
def retried (rc : Int) : Prop := rc ≠ 0 ∧ rc ≠ EINVAL

/-- Is the event a mutex call. -/
def Event.is_mutex_call : Event → Bool
  | Event.lock _ _ => true
  | Event.lock_wait _ => true
  | Event.unlock _ _ => true
  | _ => false

/-- Lock discipline of a trace, for one thread and one bucket mutex, every
call succeeding. `held` says whether the thread holds the mutex before the
first event. The result is `none` when the trace acquires the mutex while
holding it, releases it while not holding it, touches the chain (scan, store,
insertion) without holding it, or contains a mutex call that did not return
`0`; otherwise it says whether the mutex is held after the last event. -/
def lock_discipline : Bool → List Event → Option Bool
  | held, [] => some held
  | held, Event.lock _ rc :: rest =>
    if held = false ∧ rc = 0 then lock_discipline true rest else none
  | _, Event.lock_wait _ :: _ => none
  | held, Event.unlock _ rc :: rest =>
    if held = true ∧ rc = 0 then lock_discipline false rest else none
  | held, Event.scan _ :: rest => if held = true then lock_discipline held rest else none
  | held, Event.store _ :: rest => if held = true then lock_discipline held rest else none
  | held, Event.insert_head _ :: rest => if held = true then lock_discipline held rest else none

/-! ## Chains -/

theorem slist_find_lt (k : String) (l : List list_entry) (i : Nat)
    (h : slist_find k l = some i) : i < l.length := by
  induction l generalizing i with
  | nil => simp [slist_find] at h
  | cons e rest ih =>
    unfold slist_find at h
    by_cases hk : e.key = k
    · simp [hk] at h; subst h; simp
    · simp only [hk, if_false] at h
      cases hr : slist_find k rest with
      | none => simp [hr] at h
      | some j =>
        simp [hr] at h
        subst h
        have := ih j hr
        simp
        omega

theorem slist_find_none_iff (k : String) (l : List list_entry) :
    slist_find k l = none ↔ ∀ e ∈ l, e.key ≠ k := by
  induction l with
  | nil => simp [slist_find]
  | cons e rest ih =>
    unfold slist_find
    by_cases hk : e.key = k
    · simp [hk]
    · simp only [hk, if_false]
      cases hr : slist_find k rest with
      | none => simpa [hk] using ih.mp hr
      | some j =>
        simp only [List.mem_cons, forall_eq_or_imp, false_iff, reduceCtorEq]
        intro h
        have := ih.mpr h.2
        simp [hr] at this

theorem slist_find_get (k : String) (l : List list_entry) (i : Nat)
    (h : slist_find k l = some i) :
    ∃ e, l[i]? = some e ∧ e.key = k ∧ chain_value k l = some e.value := by
  induction l generalizing i with
  | nil => simp [slist_find] at h
  | cons e rest ih =>
    unfold slist_find at h
    by_cases hk : e.key = k
    · simp [hk] at h; subst h
      exact ⟨e, by simp, hk, by simp [chain_value, hk]⟩
    · simp only [hk, if_false] at h
      cases hr : slist_find k rest with
      | none => simp [hr] at h
      | some j =>
        simp [hr] at h
        subst h
        obtain ⟨e', h1, h2, h3⟩ := ih j hr
        exact ⟨e', by simpa using h1, h2, by simp [chain_value, hk, h3]⟩

theorem slist_find_first (k : String) (l : List list_entry) (i : Nat)
    (h : slist_find k l = some i) : ∀ j e, j < i → l[j]? = some e → e.key ≠ k := by
  induction l generalizing i with
  | nil => simp [slist_find] at h
  | cons e rest ih =>
    unfold slist_find at h
    by_cases hk : e.key = k
    · simp [hk] at h; subst h
      intro j e' hj; omega
    · simp only [hk, if_false] at h
      cases hr : slist_find k rest with
      | none => simp [hr] at h
      | some i' =>
        simp [hr] at h
        subst h
        intro j e' hj hget
        cases j with
        | zero =>
          simp at hget
          subst hget
          exact hk
        | succ j' =>
          simp at hget
          exact ih i' hr j' e' (by omega) hget

theorem chain_value_none_iff (k : String) (l : List list_entry) :
    chain_value k l = none ↔ slist_find k l = none := by
  induction l with
  | nil => simp [slist_find, chain_value]
  | cons e rest ih =>
    unfold slist_find chain_value
    by_cases hk : e.key = k
    · simp [hk]
    · simp only [hk, if_false]
      cases hr : slist_find k rest with
      | none => simpa [hr] using ih
      | some j => simpa [hr] using ih

theorem chain_value_isSome (k : String) (l : List list_entry) :
    (chain_value k l).isSome = (slist_find k l).isSome := by
  cases h1 : chain_value k l with
  | none => simp [(chain_value_none_iff k l).mp h1]
  | some v =>
    cases h2 : slist_find k l with
    | none => rw [(chain_value_none_iff k l).mpr h2] at h1; cases h1
    | some i => rfl

theorem store_value_keys (l : List list_entry) (i v : Nat) :
    (store_value l i v).map list_entry.key = l.map list_entry.key := by
  induction l generalizing i with
  | nil => simp [store_value]
  | cons e rest ih =>
    cases i with
    | zero => simp [store_value]
    | succ j => simp [store_value, ih]

theorem store_value_length (l : List list_entry) (i v : Nat) :
    (store_value l i v).length = l.length := by
  have := congrArg List.length (store_value_keys l i v)
  simpa using this

theorem chain_value_store_self (k : String) (l : List list_entry) (i v : Nat)
    (h : slist_find k l = some i) : chain_value k (store_value l i v) = some v := by
  induction l generalizing i with
  | nil => simp [slist_find] at h
  | cons e rest ih =>
    unfold slist_find at h
    by_cases hk : e.key = k
    · simp [hk] at h; subst h
      simp [store_value, chain_value, hk]
    · simp only [hk, if_false] at h
      cases hr : slist_find k rest with
      | none => simp [hr] at h
      | some j =>
        simp [hr] at h
        subst h
        simp [store_value, chain_value, hk, ih j hr]

theorem chain_value_store_other (k k' : String) (l : List list_entry) (i v : Nat)
    (h : slist_find k l = some i) (hne : k' ≠ k) :
    chain_value k' (store_value l i v) = chain_value k' l := by
  induction l generalizing i with
  | nil => simp [slist_find] at h
  | cons e rest ih =>
    unfold slist_find at h
    by_cases hk : e.key = k
    · simp [hk] at h; subst h
      have : ¬ e.key = k' := fun h' => hne (h'.symm.trans hk)
      simp [store_value, chain_value, this]
    · simp only [hk, if_false] at h
      cases hr : slist_find k rest with
      | none => simp [hr] at h
      | some j =>
        simp [hr] at h
        subst h
        simp [store_value, chain_value, ih j hr]

theorem chain_value_add_self (k : String) (v : Nat) (l : List list_entry) :
    chain_value k (chain_add k v l) = some v := by
  unfold chain_add
  cases h : slist_find k l with
  | none => simp [chain_value]
  | some i => simpa using chain_value_store_self k l i v h

theorem chain_value_add_other (k k' : String) (v : Nat) (l : List list_entry) (hne : k' ≠ k) :
    chain_value k' (chain_add k v l) = chain_value k' l := by
  unfold chain_add
  cases h : slist_find k l with
  | none =>
    have : ¬ k = k' := fun h' => hne h'.symm
    simp [chain_value, this]
  | some i => simpa using chain_value_store_other k k' l i v h hne

theorem chain_add_keys_found (k : String) (v : Nat) (l : List list_entry)
    (h : k ∈ l.map list_entry.key) :
    (chain_add k v l).map list_entry.key = l.map list_entry.key := by
  unfold chain_add
  cases hf : slist_find k l with
  | none =>
    have := (slist_find_none_iff k l).mp hf
    simp only [List.mem_map] at h
    obtain ⟨e, he, hk⟩ := h
    exact absurd hk (this e he)
  | some i => simpa using store_value_keys l i v

theorem chain_add_keys_fresh (k : String) (v : Nat) (l : List list_entry)
    (h : k ∉ l.map list_entry.key) :
    chain_add k v l = ⟨k, v⟩ :: l := by
  unfold chain_add
  cases hf : slist_find k l with
  | none => rfl
  | some i =>
    obtain ⟨e, h1, h2, _⟩ := slist_find_get k l i hf
    exact absurd (List.mem_map.mpr ⟨e, List.getElem?_mem h1, h2⟩) h

theorem chain_add_keys_mem (k k' : String) (v : Nat) (l : List list_entry) :
    k' ∈ (chain_add k v l).map list_entry.key ↔ k' = k ∨ k' ∈ l.map list_entry.key := by
  by_cases h : k ∈ l.map list_entry.key
  · rw [chain_add_keys_found k v l h]
    constructor
    · exact Or.inr
    · rintro (rfl | h')
      · exact h
      · exact h'
  · rw [chain_add_keys_fresh k v l h]
    simp

theorem chain_add_nodup (k : String) (v : Nat) (l : List list_entry)
    (h : (l.map list_entry.key).Nodup) : ((chain_add k v l).map list_entry.key).Nodup := by
  by_cases hk : k ∈ l.map list_entry.key
  · rw [chain_add_keys_found k v l hk]; exact h
  · rw [chain_add_keys_fresh k v l hk]
    simpa using ⟨by simpa using hk, h⟩

/-! ## Tables -/

theorem hash_table_v2.ext_entries {μ : Type} {cap : Nat} (A B : hash_table_v2 μ cap)
    (h : ∀ i, A.entries i = B.entries i) : A = B := by
  cases A; cases B
  simp only [hash_table_v2.mk.injEq]
  exact funext h

@[simp] theorem set_mutex_same {μ : Type} {cap : Nat} (T : hash_table_v2 μ cap) (i : Fin cap)
    (m : μ) : (T.set_mutex i m).entries i = ⟨(T.entries i).list_head, m⟩ := by
  simp [hash_table_v2.set_mutex]

theorem set_mutex_other {μ : Type} {cap : Nat} (T : hash_table_v2 μ cap) (i j : Fin cap)
    (m : μ) (h : j ≠ i) : (T.set_mutex i m).entries j = T.entries j := by
  simp [hash_table_v2.set_mutex, Function.update_noteq h]

@[simp] theorem set_list_same {μ : Type} {cap : Nat} (T : hash_table_v2 μ cap) (i : Fin cap)
    (l : List list_entry) : (T.set_list i l).entries i = ⟨l, (T.entries i).mutex⟩ := by
  simp [hash_table_v2.set_list]

theorem set_list_other {μ : Type} {cap : Nat} (T : hash_table_v2 μ cap) (i j : Fin cap)
    (l : List list_entry) (h : j ≠ i) : (T.set_list i l).entries j = T.entries j := by
  simp [hash_table_v2.set_list, Function.update_noteq h]

theorem get_hash_table_entry_some (hash : String → Nat) (cap : Nat) (hcap : 0 < cap)
    (k : String) :
    get_hash_table_entry hash cap hcap (some k) = Result.ok (bucket hash cap hcap k) := rfl

theorem contains_eq {μ : Type} (hash : String → Nat) (cap : Nat) (hcap : 0 < cap)
    (T : hash_table_v2 μ cap) (k : String) :
    hash_table_v2_contains hash cap hcap T (some k)
      = Result.ok (chain_value k (T.entries (bucket hash cap hcap k)).list_head).isSome := by
  simp [hash_table_v2_contains, get_hash_table_entry_some, get_list_entry, chain_value_isSome]

theorem get_value_eq {μ : Type} (hash : String → Nat) (cap : Nat) (hcap : 0 < cap)
    (T : hash_table_v2 μ cap) (k : String) :
    hash_table_v2_get_value hash cap hcap T (some k)
      = match chain_value k (T.entries (bucket hash cap hcap k)).list_head with
        | some v => Result.ok v
        | none => Result.assert_failed := by
  simp only [hash_table_v2_get_value, get_hash_table_entry_some, get_list_entry]
  cases hf : slist_find k (T.entries (bucket hash cap hcap k)).list_head with
  | none => simp [(chain_value_none_iff k _).mpr hf]
  | some i =>
    obtain ⟨e, h1, _, h3⟩ := slist_find_get k _ i hf
    simp [h1, h3]

theorem errorcheck_unlock (tid : Nat) (m : pthread_mutex_t) :
    errorcheck.unlock tid m = pthread_mutex_unlock tid m := rfl

theorem lock_loop_free (tid i fuel : Nat) :
    lock_loop errorcheck tid i (fuel + 1) ⟨none⟩
      = (Status.returned, ⟨some tid⟩, [Event.lock i 0]) := by
  simp [lock_loop, errorcheck, pthread_mutex_lock]

/-- On a free bucket mutex a call with a non-null key returns as soon as each
lock loop may run once, and the only change is `chain_add` on the key's
chain. -/
theorem add_entry_free (hash : String → Nat) (cap : Nat) (hcap : 0 < cap) (tid fuel : Nat)
    (T : hash_table_v2 pthread_mutex_t cap) (k : String) (v : Nat)
    (hfree : (T.entries (bucket hash cap hcap k)).mutex = ⟨none⟩) :
    (hash_table_v2_add_entry errorcheck hash cap hcap tid (fuel + 1) T (some k) v).status
        = Status.returned ∧
    (hash_table_v2_add_entry errorcheck hash cap hcap tid (fuel + 1) T (some k) v).table
        = T.set_list (bucket hash cap hcap k)
            (chain_add k v (T.entries (bucket hash cap hcap k)).list_head) := by
  unfold hash_table_v2_add_entry
  simp only [get_hash_table_entry_some, hfree, lock_loop_free, get_list_entry, set_mutex_same]
  cases hf : slist_find k (T.entries (bucket hash cap hcap k)).list_head with
  | none =>
    simp only [chain_add, hf, errorcheck_unlock, pthread_mutex_unlock, set_mutex_same,
      set_list_same, lock_loop_free, ne_eq, not_true_eq_false, if_true, if_false, true_and]
    apply hash_table_v2.ext_entries
    intro j
    by_cases hj : j = bucket hash cap hcap k
    · subst hj; simp [hfree]
    · simp [set_mutex_other, set_list_other, hj]
  | some i =>
    simp only [chain_add, hf, errorcheck_unlock, pthread_mutex_unlock, set_mutex_same,
      set_list_same, ne_eq, not_true_eq_false, if_true, if_false, true_and]
    apply hash_table_v2.ext_entries
    intro j
    by_cases hj : j = bucket hash cap hcap k
    · subst hj; simp [hfree]
    · simp [set_mutex_other, set_list_other, hj]

/-! ## The single-threaded invariant: proofs -/

theorem create_returned {μ : Type} (fresh : μ) (cap : Nat) (calloc_ok : Bool)
    (rc_attr_init rc_settype : Int) (rc_mutex_init : Fin cap → Int) (rc_attr_destroy : Int)
    (T : hash_table_v2 μ cap)
    (h : hash_table_v2_create fresh cap calloc_ok rc_attr_init rc_settype rc_mutex_init
      rc_attr_destroy = (Status.returned, some T)) :
    T = ⟨fun _ => ⟨[], fresh⟩⟩ := by
  unfold hash_table_v2_create at h
  split at h
  · cases h
  · split at h
    · cases h
    · split at h
      · cases h
      · split at h
        · cases h
        · split at h
          · cases h
          · simp only [Prod.mk.injEq, Option.some.injEq, true_and] at h
            exact h.symm

theorem inv_fresh (hash : String → Nat) (cap : Nat) (hcap : 0 < cap) :
    Inv hash cap hcap ⟨fun _ => ⟨[], ⟨none⟩⟩⟩ :=
  ⟨fun _ => rfl, fun _ e he => by simp at he, fun _ => by simp⟩

theorem inv_chain_add (hash : String → Nat) (cap : Nat) (hcap : 0 < cap)
    (T : hash_table_v2 pthread_mutex_t cap) (k : String) (v : Nat)
    (h : Inv hash cap hcap T) :
    Inv hash cap hcap (T.set_list (bucket hash cap hcap k)
      (chain_add k v (T.entries (bucket hash cap hcap k)).list_head)) := by
  refine ⟨fun i => ?_, fun i e he => ?_, fun i => ?_⟩
  · by_cases hi : i = bucket hash cap hcap k
    · subst hi; simpa using h.free _
    · rw [set_list_other _ _ _ _ hi]; exact h.free i
  · by_cases hi : i = bucket hash cap hcap k
    · subst hi
      simp only [set_list_same] at he
      have hmem : e.key ∈ (chain_add k v (T.entries (bucket hash cap hcap k)).list_head).map
          list_entry.key := List.mem_map.mpr ⟨e, he, rfl⟩
      rcases (chain_add_keys_mem k e.key v _).mp hmem with hk | hk
      · rw [hk]
      · obtain ⟨e', he', hk'⟩ := List.mem_map.mp hk
        rw [← hk']
        exact h.placed _ e' he'
    · rw [set_list_other _ _ _ _ hi] at he; exact h.placed i e he
  · by_cases hi : i = bucket hash cap hcap k
    · subst hi
      simp only [set_list_same]
      exact chain_add_nodup k v _ (h.nodup _)
    · rw [set_list_other _ _ _ _ hi]; exact h.nodup i

theorem add_entry_null {μ : Type} (P : Pthread μ) (hash : String → Nat) (cap : Nat)
    (hcap : 0 < cap) (tid fuel : Nat) (T : hash_table_v2 μ cap) (v : Nat) :
    hash_table_v2_add_entry P hash cap hcap tid fuel T none v
      = ⟨Status.assert_failed, T, []⟩ := rfl

theorem add_entry_no_fuel {μ : Type} (P : Pthread μ) (hash : String → Nat) (cap : Nat)
    (hcap : 0 < cap) (tid : Nat) (T : hash_table_v2 μ cap) (k : String) (v : Nat) :
    (hash_table_v2_add_entry P hash cap hcap tid 0 T (some k) v).status = Status.spinning := by
  simp [hash_table_v2_add_entry, get_hash_table_entry_some, lock_loop]

theorem inv_add_entry (hash : String → Nat) (cap : Nat) (hcap : 0 < cap) (tid fuel : Nat)
    (T : hash_table_v2 pthread_mutex_t cap) (key : Option String) (v : Nat)
    (h : Inv hash cap hcap T)
    (hr : (hash_table_v2_add_entry errorcheck hash cap hcap tid fuel T key v).status
      = Status.returned) :
    Inv hash cap hcap (hash_table_v2_add_entry errorcheck hash cap hcap tid fuel T key v).table := by
  cases key with
  | none => rw [add_entry_null] at hr; cases hr
  | some k =>
    cases fuel with
    | zero => rw [add_entry_no_fuel] at hr; cases hr
    | succ n =>
      rw [(add_entry_free hash cap hcap tid n T k v (h.free _)).2]
      exact inv_chain_add hash cap hcap T k v h

theorem reachable_inv (hash : String → Nat) (cap : Nat) (hcap : 0 < cap)
    (T : hash_table_v2 pthread_mutex_t cap) (h : Reachable hash cap hcap T) :
    Inv hash cap hcap T := by
  induction h with
  | create c r1 r2 r3 r4 T hc =>
    rw [create_returned _ _ _ _ _ _ _ T hc]
    exact inv_fresh hash cap hcap
  | add_entry T tid fuel key value _ hr ih => exact inv_add_entry hash cap hcap tid fuel T key value ih hr

/-- Value found for `K'` after a returning `add_entry k v`. -/
theorem value_after_add (hash : String → Nat) (cap : Nat) (hcap : 0 < cap) (tid fuel : Nat)
    (T : hash_table_v2 pthread_mutex_t cap) (k K' : String) (v : Nat)
    (hfree : (T.entries (bucket hash cap hcap k)).mutex = ⟨none⟩) :
    chain_value K'
      (((hash_table_v2_add_entry errorcheck hash cap hcap tid (fuel + 1) T (some k) v).table).entries
        (bucket hash cap hcap K')).list_head
      = if K' = k then some v else chain_value K' (T.entries (bucket hash cap hcap K')).list_head := by
  rw [(add_entry_free hash cap hcap tid fuel T k v hfree).2]
  by_cases hk : K' = k
  · subst hk
    simp [chain_value_add_self]
  · simp only [hk, if_false]
    by_cases hb : bucket hash cap hcap K' = bucket hash cap hcap k
    · rw [hb]
      simp only [set_list_same]
      rw [chain_value_add_other k K' v _ hk]
    · rw [set_list_other _ _ _ _ hb]

/-! ## Sequences of calls -/

theorem add_entries_spec (hash : String → Nat) (cap : Nat) (hcap : 0 < cap) (tid fuel : Nat)
    (ops : List (String × Nat)) (T : hash_table_v2 pthread_mutex_t cap)
    (h : Inv hash cap hcap T) :
    (add_entries hash cap hcap tid (fuel + 1) T ops).1 = Status.returned ∧
    Inv hash cap hcap (add_entries hash cap hcap tid (fuel + 1) T ops).2 ∧
    ∀ K, chain_value K
        (((add_entries hash cap hcap tid (fuel + 1) T ops).2).entries
          (bucket hash cap hcap K)).list_head
      = match last_write K ops with
        | some w => some w
        | none => chain_value K (T.entries (bucket hash cap hcap K)).list_head := by
  induction ops generalizing T with
  | nil => exact ⟨rfl, h, fun K => rfl⟩
  | cons op rest ih =>
    obtain ⟨k, v⟩ := op
    have hst := (add_entry_free hash cap hcap tid fuel T k v (h.free _)).1
    have hinv := inv_add_entry hash cap hcap tid (fuel + 1) T (some k) v h hst
    obtain ⟨h1, h2, h3⟩ := ih _ hinv
    simp only [add_entries, hst, if_true]
    refine ⟨h1, h2, fun K => ?_⟩
    rw [h3 K, value_after_add hash cap hcap tid fuel T k K v (h.free _)]
    simp only [last_write]
    cases last_write K rest with
    | some w => rfl
    | none =>
      by_cases hk : K = k
      · subst hk; simp
      · have : ¬ k = K := fun h' => hk h'.symm
        simp [hk, this]

theorem last_write_none_iff (K : String) (ops : List (String × Nat)) :
    last_write K ops = none ↔ ∀ op ∈ ops, op.1 ≠ K := by
  induction ops with
  | nil => simp [last_write]
  | cons op rest ih =>
    obtain ⟨k, v⟩ := op
    simp only [last_write, List.mem_cons, forall_eq_or_imp]
    cases hl : last_write K rest with
    | some w =>
      simp only [reduceCtorEq, false_iff, not_and]
      intro _ hall
      rw [ih.mpr hall] at hl
      cases hl
    | none =>
      have := ih.mp hl
      by_cases hk : k = K
      · simp [hk]
      · simp only [hk, if_false, ne_eq, not_false_eq_true, true_and, true_iff]
        exact this

theorem last_write_append (K : String) (v : Nat) (pre post : List (String × Nat))
    (hpost : ∀ op ∈ post, op.1 ≠ K) : last_write K (pre ++ (K, v) :: post) = some v := by
  induction pre with
  | nil => simp [last_write, (last_write_none_iff K post).mpr hpost]
  | cons op rest ih =>
    obtain ⟨k, w⟩ := op
    simp [last_write, ih]

theorem finite_map_foldl (K : String) (ops : List (String × Nat)) (m : String → Option Nat) :
    ops.foldl (fun m op => fun K => if K = op.1 then some op.2 else m K) m K
      = match last_write K ops with
        | some w => some w
        | none => m K := by
  induction ops generalizing m with
  | nil => rfl
  | cons op rest ih =>
    obtain ⟨k, v⟩ := op
    simp only [List.foldl_cons, last_write]
    rw [ih]
    cases last_write K rest with
    | some w => rfl
    | none =>
      by_cases hk : K = k
      · subst hk; simp
      · have : ¬ k = K := fun h' => hk h'.symm
        simp [hk, this]

theorem finite_map_after_eq (K : String) (ops : List (String × Nat)) :
    finite_map_after ops K = last_write K ops := by
  unfold finite_map_after
  rw [finite_map_foldl]
  cases last_write K ops <;> rfl

/-! ## Counting nodes -/

theorem filter_key_length (K : String) (l : List list_entry)
    (h : (l.map list_entry.key).Nodup) :
    (l.filter (fun e => e.key = K)).length = if K ∈ l.map list_entry.key then 1 else 0 := by
  induction l with
  | nil => simp
  | cons e rest ih =>
    simp only [List.map_cons, List.nodup_cons] at h
    have ih' := ih h.2
    by_cases hk : e.key = K
    · subst hk
      have hnot : e.key ∉ List.map list_entry.key rest := h.1
      simp only [hnot, if_false] at ih'
      simp [List.filter_cons, ih']
    · have : ¬ K = e.key := fun h' => hk h'.symm
      simp only [List.filter_cons, hk, decide_False, Bool.false_eq_true, if_false, ih',
        List.map_cons, List.mem_cons, this, false_or]

theorem sum_finRange_single (cap : Nat) (f : Fin cap → Nat) (i0 : Fin cap)
    (h : ∀ i, i ≠ i0 → f i = 0) : ((List.finRange cap).map f).sum = f i0 := by
  rw [← Fin.sum_univ_def]
  exact Finset.sum_eq_single i0 (fun i _ hi => h i hi) (fun hi => absurd (Finset.mem_univ _) hi)

theorem key_count_inv (hash : String → Nat) (cap : Nat) (hcap : 0 < cap)
    (T : hash_table_v2 pthread_mutex_t cap) (h : Inv hash cap hcap T) (K : String) :
    key_count T K
      = if (chain_value K (T.entries (bucket hash cap hcap K)).list_head).isSome then 1 else 0 := by
  unfold key_count
  rw [sum_finRange_single cap _ (bucket hash cap hcap K)]
  · rw [filter_key_length K _ (h.nodup _)]
    have : K ∈ (T.entries (bucket hash cap hcap K)).list_head.map list_entry.key ↔
        (chain_value K (T.entries (bucket hash cap hcap K)).list_head).isSome = true := by
      rw [chain_value_isSome, ← Option.ne_none_iff_isSome, ne_eq, slist_find_none_iff]
      simp
    simp only [this]
  · intro i hi
    rw [List.length_eq_zero, List.filter_eq_nil_iff]
    intro e he hk
    simp only [decide_eq_true_eq] at hk
    have := h.placed i e he
    rw [hk] at this
    exact hi this.symm

theorem node_count_set_list {μ : Type} {cap : Nat} (T : hash_table_v2 μ cap) (i : Fin cap)
    (l : List list_entry) (h : l.length = (T.entries i).list_head.length) :
    node_count (T.set_list i l) = node_count T := by
  unfold node_count
  congr 1
  apply List.map_congr_left
  intro j _
  by_cases hj : j = i
  · subst hj; simp [h]
  · rw [set_list_other _ _ _ _ hj]

/-! ## Properties of the single-threaded table -/

/-- C1: in every table state reachable from `create` by `add_entry` calls,
for every non-null key `K`, every value `V`, every hash function and every
capacity `> 0`, a call `add_entry(K, V)` returns, and afterwards
`contains(K)` is true and `get_value(K)` returns `V` without aborting. -/
theorem add_entry_then_contains_and_get_value (hash : String → Nat) (cap : Nat) (hcap : 0 < cap)
    (T : hash_table_v2 pthread_mutex_t cap) (hT : Reachable hash cap hcap T)
    (tid fuel : Nat) (K : String) (V : Nat) :
    (hash_table_v2_add_entry errorcheck hash cap hcap tid (fuel + 1) T (some K) V).status
      = Status.returned ∧
    hash_table_v2_contains hash cap hcap
      (hash_table_v2_add_entry errorcheck hash cap hcap tid (fuel + 1) T (some K) V).table (some K)
      = Result.ok true ∧
    hash_table_v2_get_value hash cap hcap
      (hash_table_v2_add_entry errorcheck hash cap hcap tid (fuel + 1) T (some K) V).table (some K)
      = Result.ok V := by
  have hfree := (reachable_inv hash cap hcap T hT).free (bucket hash cap hcap K)
  refine ⟨(add_entry_free hash cap hcap tid fuel T K V hfree).1, ?_, ?_⟩
  · rw [contains_eq, value_after_add hash cap hcap tid fuel T K K V hfree]
    simp
  · rw [get_value_eq, value_after_add hash cap hcap tid fuel T K K V hfree]
    simp

/-- Instance of C1: the key `"a"` with value `7` on a fresh table of four
buckets hashed by string length. -/
theorem add_entry_then_contains_and_get_value_witness :
    Reachable String.length 4 (by decide) ⟨fun _ => ⟨[], ⟨none⟩⟩⟩ ∧
    (hash_table_v2_add_entry errorcheck String.length 4 (by decide) 0 1
      ⟨fun _ => ⟨[], ⟨none⟩⟩⟩ (some "a") 7).status = Status.returned ∧
    hash_table_v2_contains String.length 4 (by decide)
      (hash_table_v2_add_entry errorcheck String.length 4 (by decide) 0 1
        ⟨fun _ => ⟨[], ⟨none⟩⟩⟩ (some "a") 7).table (some "a") = Result.ok true ∧
    hash_table_v2_get_value String.length 4 (by decide)
      (hash_table_v2_add_entry errorcheck String.length 4 (by decide) 0 1
        ⟨fun _ => ⟨[], ⟨none⟩⟩⟩ (some "a") 7).table (some "a") = Result.ok 7 :=
  have hR : Reachable String.length 4 (by decide) ⟨fun _ => ⟨[], ⟨none⟩⟩⟩ :=
    Reachable.create true 0 0 (fun _ => 0) 0 _ (by simp [hash_table_v2_create])
  ⟨hR, add_entry_then_contains_and_get_value String.length 4 (by decide) _ hR 0 0 "a" 7⟩

/-- C2: in every reachable table state, for every key `K` and values `V1`,
`V2`, after `add_entry(K, V1)` followed by `add_entry(K, V2)` both calls have
returned, `get_value(K)` returns `V2`, the whole table holds exactly one node
with key `K`, and the second call added no node. -/
theorem add_entry_twice_updates_in_place (hash : String → Nat) (cap : Nat) (hcap : 0 < cap)
    (T : hash_table_v2 pthread_mutex_t cap) (hT : Reachable hash cap hcap T)
    (tid fuel tid' fuel' : Nat) (K : String) (V1 V2 : Nat) :
    (hash_table_v2_add_entry errorcheck hash cap hcap tid (fuel + 1) T (some K) V1).status
      = Status.returned ∧
    (hash_table_v2_add_entry errorcheck hash cap hcap tid' (fuel' + 1)
      (hash_table_v2_add_entry errorcheck hash cap hcap tid (fuel + 1) T (some K) V1).table
      (some K) V2).status = Status.returned ∧
    hash_table_v2_get_value hash cap hcap
      (hash_table_v2_add_entry errorcheck hash cap hcap tid' (fuel' + 1)
        (hash_table_v2_add_entry errorcheck hash cap hcap tid (fuel + 1) T (some K) V1).table
        (some K) V2).table (some K) = Result.ok V2 ∧
    key_count
      (hash_table_v2_add_entry errorcheck hash cap hcap tid' (fuel' + 1)
        (hash_table_v2_add_entry errorcheck hash cap hcap tid (fuel + 1) T (some K) V1).table
        (some K) V2).table K = 1 ∧
    node_count
      (hash_table_v2_add_entry errorcheck hash cap hcap tid' (fuel' + 1)
        (hash_table_v2_add_entry errorcheck hash cap hcap tid (fuel + 1) T (some K) V1).table
        (some K) V2).table
      = node_count
        (hash_table_v2_add_entry errorcheck hash cap hcap tid (fuel + 1) T (some K) V1).table := by
  have hst1 := (add_entry_free hash cap hcap tid fuel T K V1
    ((reachable_inv hash cap hcap T hT).free _)).1
  have hR1 := Reachable.add_entry T tid (fuel + 1) (some K) V1 hT hst1
  have hI1 := reachable_inv hash cap hcap _ hR1
  have hfree1 := hI1.free (bucket hash cap hcap K)
  have hst2 := (add_entry_free hash cap hcap tid' fuel' _ K V2 hfree1).1
  have hR2 := Reachable.add_entry _ tid' (fuel' + 1) (some K) V2 hR1 hst2
  have hI2 := reachable_inv hash cap hcap _ hR2
  have hv1 := value_after_add hash cap hcap tid fuel T K K V1
    ((reachable_inv hash cap hcap T hT).free _)
  have hv2 := value_after_add hash cap hcap tid' fuel' _ K K V2 hfree1
  simp only [if_true] at hv1 hv2
  refine ⟨hst1, hst2, ?_, ?_, ?_⟩
  · rw [get_value_eq, hv2]
  · rw [key_count_inv hash cap hcap _ hI2 K, hv2]; rfl
  · rw [(add_entry_free hash cap hcap tid' fuel' _ K V2 hfree1).2]
    apply node_count_set_list
    have hmem : K ∈ ((hash_table_v2_add_entry errorcheck hash cap hcap tid (fuel + 1) T
        (some K) V1).table.entries (bucket hash cap hcap K)).list_head.map list_entry.key := by
      by_contra hno
      have hnone := (slist_find_none_iff K _).mpr (fun e he hk => hno (List.mem_map.mpr ⟨e, he, hk⟩))
      rw [(chain_value_none_iff K _).mpr hnone] at hv1
      cases hv1
    have := congrArg List.length (chain_add_keys_found K V2 _ hmem)
    simpa using this

/-- Instance of C2 on a fresh table of four buckets hashed by string length. -/
theorem add_entry_twice_updates_in_place_witness :
    Reachable String.length 4 (by decide) ⟨fun _ => ⟨[], ⟨none⟩⟩⟩ ∧
    hash_table_v2_get_value String.length 4 (by decide)
      (hash_table_v2_add_entry errorcheck String.length 4 (by decide) 0 1
        (hash_table_v2_add_entry errorcheck String.length 4 (by decide) 0 1
          ⟨fun _ => ⟨[], ⟨none⟩⟩⟩ (some "a") 7).table (some "a") 9).table (some "a")
      = Result.ok 9 ∧
    key_count
      (hash_table_v2_add_entry errorcheck String.length 4 (by decide) 0 1
        (hash_table_v2_add_entry errorcheck String.length 4 (by decide) 0 1
          ⟨fun _ => ⟨[], ⟨none⟩⟩⟩ (some "a") 7).table (some "a") 9).table "a" = 1 :=
  have hR : Reachable String.length 4 (by decide) ⟨fun _ => ⟨[], ⟨none⟩⟩⟩ :=
    Reachable.create true 0 0 (fun _ => 0) 0 _ (by simp [hash_table_v2_create])
  have h := add_entry_twice_updates_in_place String.length 4 (by decide) _ hR 0 0 0 0 "a" 7 9
  ⟨hR, h.2.2.1, h.2.2.2.1⟩

/-- C3: on a table freshly returned by `hash_table_v2_create` every bucket
chain is empty and `contains(K)` is false for every key `K`; any finite
sequence of `add_entry` calls none of whose keys equals `K` runs to the end
and leaves `contains(K)` false, whatever buckets those keys hash to. -/
theorem contains_false_for_key_never_added (hash : String → Nat) (cap : Nat) (hcap : 0 < cap)
    (calloc_ok : Bool) (rc_attr_init rc_settype : Int) (rc_mutex_init : Fin cap → Int)
    (rc_attr_destroy : Int) (T : hash_table_v2 pthread_mutex_t cap)
    (hT : hash_table_v2_create (⟨none⟩ : pthread_mutex_t) cap calloc_ok rc_attr_init rc_settype
      rc_mutex_init rc_attr_destroy = (Status.returned, some T))
    (K : String) :
    (∀ i, (T.entries i).list_head = []) ∧
    hash_table_v2_contains hash cap hcap T (some K) = Result.ok false ∧
    ∀ (tid fuel : Nat) (ops : List (String × Nat)), (∀ op ∈ ops, op.1 ≠ K) →
      (add_entries hash cap hcap tid (fuel + 1) T ops).1 = Status.returned ∧
      hash_table_v2_contains hash cap hcap (add_entries hash cap hcap tid (fuel + 1) T ops).2
        (some K) = Result.ok false := by
  have hT' := create_returned _ _ _ _ _ _ _ T hT
  subst hT'
  refine ⟨fun _ => rfl, ?_, fun tid fuel ops hops => ?_⟩
  · rw [contains_eq]; rfl
  · obtain ⟨h1, _, h3⟩ := add_entries_spec hash cap hcap tid fuel ops _ (inv_fresh hash cap hcap)
    refine ⟨h1, ?_⟩
    rw [contains_eq, h3 K, (last_write_none_iff K ops).mpr hops]
    rfl

/-- Instance of C3: `"c"` stays absent after `"a"` and `"b"` are added, all
three keys hashing to bucket `1` of four. -/
theorem contains_false_for_key_never_added_witness :
    hash_table_v2_create (⟨none⟩ : pthread_mutex_t) 4 true 0 0 (fun _ => 0) 0
      = (Status.returned, some ⟨fun _ => ⟨[], ⟨none⟩⟩⟩) ∧
    (∀ op ∈ [("a", 1), ("b", 2)], op.1 ≠ "c") ∧
    hash_table_v2_contains String.length 4 (by decide)
      (add_entries String.length 4 (by decide) 0 1 ⟨fun _ => ⟨[], ⟨none⟩⟩⟩ [("a", 1), ("b", 2)]).2
      (some "c") = Result.ok false :=
  have hc : hash_table_v2_create (⟨none⟩ : pthread_mutex_t) 4 true 0 0 (fun _ => 0) 0
      = (Status.returned, some ⟨fun _ => ⟨[], ⟨none⟩⟩⟩) := by simp [hash_table_v2_create]
  have hops : ∀ op ∈ [("a", 1), ("b", 2)], op.1 ≠ "c" := by decide
  ⟨hc, hops,
    ((contains_false_for_key_never_added String.length 4 (by decide) true 0 0 (fun _ => 0) 0 _ hc
      "c").2.2 0 0 [("a", 1), ("b", 2)] hops).2⟩

/-- C4: for every table state and every non-null key `K`, `get_value(K)`
aborts on its assertion exactly when `contains(K)` is false, which is exactly
when no node of the chain of `K`'s bucket has key `K`; and when
`contains(K)` is true, `get_value(K)` returns the value of the first node of
that chain whose key is `K`. -/
theorem get_value_aborts_iff_not_contains {μ : Type} (hash : String → Nat) (cap : Nat)
    (hcap : 0 < cap) (T : hash_table_v2 μ cap) (K : String) :
    (hash_table_v2_get_value hash cap hcap T (some K) = Result.assert_failed ↔
      hash_table_v2_contains hash cap hcap T (some K) = Result.ok false) ∧
    (hash_table_v2_get_value hash cap hcap T (some K) = Result.assert_failed ↔
      ∀ e ∈ (T.entries (bucket hash cap hcap K)).list_head, e.key ≠ K) ∧
    (hash_table_v2_contains hash cap hcap T (some K) = Result.ok true ↔
      ∃ i e, slist_find K (T.entries (bucket hash cap hcap K)).list_head = some i ∧
        (T.entries (bucket hash cap hcap K)).list_head[i]? = some e ∧ e.key = K ∧
        (∀ j e', j < i → (T.entries (bucket hash cap hcap K)).list_head[j]? = some e' →
          e'.key ≠ K) ∧
        hash_table_v2_get_value hash cap hcap T (some K) = Result.ok e.value) := by
  rw [get_value_eq, contains_eq]
  cases hf : slist_find K (T.entries (bucket hash cap hcap K)).list_head with
  | none =>
    have hv := (chain_value_none_iff K _).mpr hf
    have hall := (slist_find_none_iff K _).mp hf
    rw [hv]
    refine ⟨⟨fun _ => rfl, fun _ => rfl⟩, ⟨fun _ => hall, fun _ => rfl⟩, ⟨fun h => ?_, ?_⟩⟩
    · simp at h
    · rintro ⟨i, e, h, _⟩; cases h
  | some i =>
    obtain ⟨e, h1, h2, h3⟩ := slist_find_get K _ i hf
    rw [h3]
    refine ⟨⟨fun h => ?_, fun h => ?_⟩, ⟨fun h => ?_, fun h => ?_⟩, ⟨fun _ => ?_, fun _ => rfl⟩⟩
    · cases h
    · simp at h
    · cases h
    · exact absurd h2 (h e (List.getElem?_mem h1))
    · exact ⟨i, e, rfl, h1, h2, slist_find_first K _ i hf, rfl⟩

/-- Instance of C4: the key `"b"` on a table of four buckets whose bucket `1`
holds the key `"a"`. -/
theorem get_value_aborts_iff_not_contains_witness :
    0 < 4 ∧
    (hash_table_v2_get_value String.length 4 (by decide)
        (⟨fun _ => ⟨[⟨"a", 7⟩], ⟨none⟩⟩⟩ : hash_table_v2 pthread_mutex_t 4) (some "b")
        = Result.assert_failed ↔
      hash_table_v2_contains String.length 4 (by decide)
        (⟨fun _ => ⟨[⟨"a", 7⟩], ⟨none⟩⟩⟩ : hash_table_v2 pthread_mutex_t 4) (some "b")
        = Result.ok false) :=
  ⟨by decide, (get_value_aborts_iff_not_contains String.length 4 (by decide)
    (⟨fun _ => ⟨[⟨"a", 7⟩], ⟨none⟩⟩⟩ : hash_table_v2 pthread_mutex_t 4) "b").1⟩

/-- C5: the single-threaded table refines the finite map with
last-write-wins semantics. For every finite sequence of `add_entry` calls
applied to a fresh table, every hash function and capacity `> 0` and every
key `K`: all calls return; `contains(K)` is true iff some call used key `K`;
`get_value(K)` is the value of the last call whose key is `K`; and both agree
with the finite map built from the same calls. -/
theorem table_refines_finite_map (hash : String → Nat) (cap : Nat) (hcap : 0 < cap)
    (calloc_ok : Bool) (rc_attr_init rc_settype : Int) (rc_mutex_init : Fin cap → Int)
    (rc_attr_destroy : Int) (T : hash_table_v2 pthread_mutex_t cap)
    (hT : hash_table_v2_create (⟨none⟩ : pthread_mutex_t) cap calloc_ok rc_attr_init rc_settype
      rc_mutex_init rc_attr_destroy = (Status.returned, some T))
    (tid fuel : Nat) (ops : List (String × Nat)) (K : String) :
    (add_entries hash cap hcap tid (fuel + 1) T ops).1 = Status.returned ∧
    (hash_table_v2_contains hash cap hcap (add_entries hash cap hcap tid (fuel + 1) T ops).2
        (some K) = Result.ok true ↔ ∃ op ∈ ops, op.1 = K) ∧
    (∀ pre v post, ops = pre ++ (K, v) :: post → (∀ op ∈ post, op.1 ≠ K) →
      hash_table_v2_get_value hash cap hcap (add_entries hash cap hcap tid (fuel + 1) T ops).2
        (some K) = Result.ok v) ∧
    hash_table_v2_contains hash cap hcap (add_entries hash cap hcap tid (fuel + 1) T ops).2
        (some K) = Result.ok (finite_map_after ops K).isSome ∧
    hash_table_v2_get_value hash cap hcap (add_entries hash cap hcap tid (fuel + 1) T ops).2
        (some K)
      = match finite_map_after ops K with
        | some v => Result.ok v
        | none => Result.assert_failed := by
  have hT' := create_returned _ _ _ _ _ _ _ T hT
  subst hT'
  obtain ⟨h1, _, h3⟩ := add_entries_spec hash cap hcap tid fuel ops _ (inv_fresh hash cap hcap)
  have hval : chain_value K
      (((add_entries hash cap hcap tid (fuel + 1) ⟨fun _ => ⟨[], ⟨none⟩⟩⟩ ops).2).entries
        (bucket hash cap hcap K)).list_head = last_write K ops := by
    rw [h3 K]
    cases last_write K ops <;> rfl
  refine ⟨h1, ?_, ?_, ?_, ?_⟩
  · rw [contains_eq, hval]
    cases hl : last_write K ops with
    | none =>
      have := (last_write_none_iff K ops).mp hl
      constructor
      · intro h; simp at h
      · rintro ⟨op, hop, hk⟩; exact absurd hk (this op hop)
    | some w =>
      refine ⟨fun _ => ?_, fun _ => rfl⟩
      by_contra hno
      have : last_write K ops = none :=
        (last_write_none_iff K ops).mpr (fun op hop hk => hno ⟨op, hop, hk⟩)
      rw [this] at hl
      cases hl
  · intro pre v post hops hpost
    rw [get_value_eq, hval, hops, last_write_append K v pre post hpost]
  · rw [contains_eq, hval, finite_map_after_eq]
  · rw [get_value_eq, hval, finite_map_after_eq]

/-- Instance of C5: three calls on a fresh table of four buckets hashed by
string length, looked up at `"a"`. -/
theorem table_refines_finite_map_witness :
    hash_table_v2_create (⟨none⟩ : pthread_mutex_t) 4 true 0 0 (fun _ => 0) 0
      = (Status.returned, some ⟨fun _ => ⟨[], ⟨none⟩⟩⟩) ∧
    hash_table_v2_get_value String.length 4 (by decide)
      (add_entries String.length 4 (by decide) 0 1 ⟨fun _ => ⟨[], ⟨none⟩⟩⟩
        [("a", 1), ("b", 2), ("a", 3)]).2 (some "a")
      = match finite_map_after [("a", 1), ("b", 2), ("a", 3)] "a" with
        | some v => Result.ok v
        | none => Result.assert_failed :=
  have hc : hash_table_v2_create (⟨none⟩ : pthread_mutex_t) 4 true 0 0 (fun _ => 0) 0
      = (Status.returned, some ⟨fun _ => ⟨[], ⟨none⟩⟩⟩) := by simp [hash_table_v2_create]
  ⟨hc, (table_refines_finite_map String.length 4 (by decide) true 0 0 (fun _ => 0) 0 _ hc 0 0
    [("a", 1), ("b", 2), ("a", 3)] "a").2.2.2.2⟩

/-- C6: in every table state reachable from `create` by `add_entry` calls
(the fresh table, and each state a returning `add_entry` leaves), the whole
table holds at most one node per key. -/
theorem at_most_one_entry_per_key (hash : String → Nat) (cap : Nat) (hcap : 0 < cap)
    (T : hash_table_v2 pthread_mutex_t cap) (hT : Reachable hash cap hcap T) (K : String) :
    key_count T K ≤ 1 := by
  rw [key_count_inv hash cap hcap T (reachable_inv hash cap hcap T hT) K]
  split <;> simp

/-- Instance of C6: the table after `add_entry("a", 7)` on a fresh table of
four buckets hashed by string length. -/
theorem at_most_one_entry_per_key_witness :
    Reachable String.length 4 (by decide)
      (hash_table_v2_add_entry errorcheck String.length 4 (by decide) 0 1
        ⟨fun _ => ⟨[], ⟨none⟩⟩⟩ (some "a") 7).table ∧
    key_count (hash_table_v2_add_entry errorcheck String.length 4 (by decide) 0 1
        ⟨fun _ => ⟨[], ⟨none⟩⟩⟩ (some "a") 7).table "a" ≤ 1 :=
  have hR : Reachable String.length 4 (by decide)
      (hash_table_v2_add_entry errorcheck String.length 4 (by decide) 0 1
        ⟨fun _ => ⟨[], ⟨none⟩⟩⟩ (some "a") 7).table :=
    Reachable.add_entry _ 0 1 (some "a") 7
      (Reachable.create true 0 0 (fun _ => 0) 0 _ (by simp [hash_table_v2_create])) (by decide)
  ⟨hR, at_most_one_entry_per_key String.length 4 (by decide) _ hR "a"⟩

/-- C7: on a fresh table, for every hash function and capacity `> 0`,
the calls `add_entry("alice",1); add_entry("bob",2); add_entry("alice",3)`
all return, after which `get_value("alice")` returns `3`,
`get_value("bob")` returns `2` and `contains("carol")` is false. -/
theorem alice_bob_scenario (hash : String → Nat) (cap : Nat) (hcap : 0 < cap)
    (calloc_ok : Bool) (rc_attr_init rc_settype : Int) (rc_mutex_init : Fin cap → Int)
    (rc_attr_destroy : Int) (T : hash_table_v2 pthread_mutex_t cap)
    (hT : hash_table_v2_create (⟨none⟩ : pthread_mutex_t) cap calloc_ok rc_attr_init rc_settype
      rc_mutex_init rc_attr_destroy = (Status.returned, some T))
    (tid fuel : Nat) :
    (add_entries hash cap hcap tid (fuel + 1) T
      [("alice", 1), ("bob", 2), ("alice", 3)]).1 = Status.returned ∧
    hash_table_v2_get_value hash cap hcap (add_entries hash cap hcap tid (fuel + 1) T
      [("alice", 1), ("bob", 2), ("alice", 3)]).2 (some "alice") = Result.ok 3 ∧
    hash_table_v2_get_value hash cap hcap (add_entries hash cap hcap tid (fuel + 1) T
      [("alice", 1), ("bob", 2), ("alice", 3)]).2 (some "bob") = Result.ok 2 ∧
    hash_table_v2_contains hash cap hcap (add_entries hash cap hcap tid (fuel + 1) T
      [("alice", 1), ("bob", 2), ("alice", 3)]).2 (some "carol") = Result.ok false := by
  have hT' := create_returned _ _ _ _ _ _ _ T hT
  subst hT'
  obtain ⟨h1, _, h3⟩ := add_entries_spec hash cap hcap tid fuel
    [("alice", 1), ("bob", 2), ("alice", 3)] _ (inv_fresh hash cap hcap)
  refine ⟨h1, ?_, ?_, ?_⟩
  · rw [get_value_eq, h3 "alice"]
    have : last_write "alice" [("alice", 1), ("bob", 2), ("alice", 3)] = some 3 := by decide
    rw [this]
  · rw [get_value_eq, h3 "bob"]
    have : last_write "bob" [("alice", 1), ("bob", 2), ("alice", 3)] = some 2 := by decide
    rw [this]
  · rw [contains_eq, h3 "carol"]
    have : last_write "carol" [("alice", 1), ("bob", 2), ("alice", 3)] = none := by decide
    rw [this]
    rfl

/-- Instance of C7: one bucket, so that all three keys collide. -/
theorem alice_bob_scenario_witness :
    hash_table_v2_create (⟨none⟩ : pthread_mutex_t) 1 true 0 0 (fun _ => 0) 0
      = (Status.returned, some ⟨fun _ => ⟨[], ⟨none⟩⟩⟩) ∧
    hash_table_v2_get_value String.length 1 (by decide)
      (add_entries String.length 1 (by decide) 0 1 ⟨fun _ => ⟨[], ⟨none⟩⟩⟩
        [("alice", 1), ("bob", 2), ("alice", 3)]).2 (some "alice") = Result.ok 3 :=
  have hc : hash_table_v2_create (⟨none⟩ : pthread_mutex_t) 1 true 0 0 (fun _ => 0) 0
      = (Status.returned, some ⟨fun _ => ⟨[], ⟨none⟩⟩⟩) := by simp [hash_table_v2_create]
  ⟨hc, (alice_bob_scenario String.length 1 (by decide) true 0 0 (fun _ => 0) 0 _ hc 0 0).2.1⟩

/-- C8: with a null key, `contains` and `get_value` abort on the assertion of
`get_hash_table_entry`, and so does `add_entry`, which at that point has made
no mutex call and no access to a bucket and leaves the table as it was. -/
theorem null_key_aborts_before_any_lock {μ : Type} (P : Pthread μ) (hash : String → Nat)
    (cap : Nat) (hcap : 0 < cap) (tid fuel : Nat) (T : hash_table_v2 μ cap) (value : Nat) :
    hash_table_v2_contains hash cap hcap T none = Result.assert_failed ∧
    hash_table_v2_get_value hash cap hcap T none = Result.assert_failed ∧
    (hash_table_v2_add_entry P hash cap hcap tid fuel T none value).status
      = Status.assert_failed ∧
    (hash_table_v2_add_entry P hash cap hcap tid fuel T none value).trace = [] ∧
    (hash_table_v2_add_entry P hash cap hcap tid fuel T none value).table = T :=
  ⟨rfl, rfl, rfl, rfl, rfl⟩

/-- Instance of C8: the null key on a table of four buckets with one node. -/
theorem null_key_aborts_before_any_lock_witness :
    0 < 4 ∧
    hash_table_v2_contains String.length 4 (by decide)
      (⟨fun _ => ⟨[⟨"a", 7⟩], ⟨none⟩⟩⟩ : hash_table_v2 pthread_mutex_t 4) none
      = Result.assert_failed ∧
    hash_table_v2_get_value String.length 4 (by decide)
      (⟨fun _ => ⟨[⟨"a", 7⟩], ⟨none⟩⟩⟩ : hash_table_v2 pthread_mutex_t 4) none
      = Result.assert_failed ∧
    (hash_table_v2_add_entry errorcheck String.length 4 (by decide) 0 1
      (⟨fun _ => ⟨[⟨"a", 7⟩], ⟨none⟩⟩⟩ : hash_table_v2 pthread_mutex_t 4) none 5).status
      = Status.assert_failed ∧
    (hash_table_v2_add_entry errorcheck String.length 4 (by decide) 0 1
      (⟨fun _ => ⟨[⟨"a", 7⟩], ⟨none⟩⟩⟩ : hash_table_v2 pthread_mutex_t 4) none 5).trace = [] :=
  have h := null_key_aborts_before_any_lock errorcheck String.length 4 (by decide) 0 1
    (⟨fun _ => ⟨[⟨"a", 7⟩], ⟨none⟩⟩⟩ : hash_table_v2 pthread_mutex_t 4) 5
  ⟨by decide, h.1, h.2.1, h.2.2.1, h.2.2.2.1⟩

/-! ## Two threads -/

/-- C9: two threads call `add_entry` with the same key `K`, absent from the
table, the bucket mutex being free. In the interleaving where each thread
runs its first locked phase (lock, scan, unlock) before either runs its
second (allocate, lock, insert, unlock), both scans find `K` absent (after
the first eight steps both threads stand at the allocation, the chain
untouched), both insert at the head, both calls return, and the chain of
`K`'s bucket ends with two nodes of key `K` in front of the old chain. -/
theorem concurrent_add_entry_duplicates_key (hash : String → Nat) (cap : Nat) (hcap : 0 < cap)
    (T : hash_table_v2 pthread_mutex_t cap) (K : String) (V1 V2 : Nat)
    (hfree : (T.entries (bucket hash cap hcap K)).mutex = ⟨none⟩)
    (habsent : hash_table_v2_contains hash cap hcap T (some K) = Result.ok false) :
    (∃ mid, sys_run errorcheck hash cap hcap
        ⟨[⟨Pc.entry, some K, V1⟩, ⟨Pc.entry, some K, V2⟩], T⟩ [0, 0, 0, 0, 1, 1, 1, 1] = some mid ∧
      mid.threads = [⟨Pc.alloc, some K, V1⟩, ⟨Pc.alloc, some K, V2⟩] ∧
      (mid.table.entries (bucket hash cap hcap K)).list_head
        = (T.entries (bucket hash cap hcap K)).list_head) ∧
    ∃ s', sys_run errorcheck hash cap hcap
        ⟨[⟨Pc.entry, some K, V1⟩, ⟨Pc.entry, some K, V2⟩], T⟩
        [0, 0, 0, 0, 1, 1, 1, 1, 0, 0, 0, 0, 1, 1, 1, 1] = some s' ∧
      s'.threads = [⟨Pc.done, some K, V1⟩, ⟨Pc.done, some K, V2⟩] ∧
      (s'.table.entries (bucket hash cap hcap K)).list_head
        = ⟨K, V2⟩ :: ⟨K, V1⟩ :: (T.entries (bucket hash cap hcap K)).list_head ∧
      ((s'.table.entries (bucket hash cap hcap K)).list_head.filter
        (fun e => e.key = K)).length = 2 := by
  have hnone : slist_find K (T.entries (bucket hash cap hcap K)).list_head = none := by
    rw [contains_eq, chain_value_isSome] at habsent
    cases hs : slist_find K (T.entries (bucket hash cap hcap K)).list_head with
    | none => rfl
    | some i => rw [hs] at habsent; simp at habsent
  have hall := (slist_find_none_iff K _).mp hnone
  constructor
  · simp [sys_run, sys_step, thread_step, get_hash_table_entry_some, get_list_entry, hnone, hfree,
      errorcheck, pthread_mutex_lock, pthread_mutex_unlock, Pc.crashed, EINVAL]
  · simp [sys_run, sys_step, thread_step, get_hash_table_entry_some, get_list_entry, hnone, hfree,
      errorcheck, pthread_mutex_lock, pthread_mutex_unlock, Pc.crashed, EINVAL]
    exact hall

/-- Instance of C9: an empty table of one bucket and the key `"k"`. -/
theorem concurrent_add_entry_duplicates_key_witness :
    ((⟨fun _ => ⟨[], ⟨none⟩⟩⟩ : hash_table_v2 pthread_mutex_t 1).entries
        (bucket String.length 1 (by decide) "k")).mutex = ⟨none⟩ ∧
    hash_table_v2_contains String.length 1 (by decide)
      (⟨fun _ => ⟨[], ⟨none⟩⟩⟩ : hash_table_v2 pthread_mutex_t 1) (some "k") = Result.ok false ∧
    ∃ s', sys_run errorcheck String.length 1 (by decide)
        ⟨[⟨Pc.entry, some "k", 1⟩, ⟨Pc.entry, some "k", 2⟩], ⟨fun _ => ⟨[], ⟨none⟩⟩⟩⟩
        [0, 0, 0, 0, 1, 1, 1, 1, 0, 0, 0, 0, 1, 1, 1, 1] = some s' ∧
      s'.threads = [⟨Pc.done, some "k", 1⟩, ⟨Pc.done, some "k", 2⟩] ∧
      (s'.table.entries (bucket String.length 1 (by decide) "k")).list_head
        = ⟨"k", 2⟩ :: ⟨"k", 1⟩ ::
          ((⟨fun _ => ⟨[], ⟨none⟩⟩⟩ : hash_table_v2 pthread_mutex_t 1).entries
            (bucket String.length 1 (by decide) "k")).list_head ∧
      ((s'.table.entries (bucket String.length 1 (by decide) "k")).list_head.filter
        (fun e => e.key = "k")).length = 2 :=
  ⟨rfl, rfl,
    (concurrent_add_entry_duplicates_key String.length 1 (by decide) ⟨fun _ => ⟨[], ⟨none⟩⟩⟩
      "k" 1 2 rfl rfl).2⟩

/-! ## Which bucket a call touches -/

theorem lock_loop_trace_bucket {μ : Type} (P : Pthread μ) (tid i fuel : Nat) (m : μ) :
    ∀ ev ∈ (lock_loop P tid i fuel m).2.2, ev.bucket = i := by
  induction fuel generalizing m with
  | zero => simp [lock_loop]
  | succ n ih =>
    unfold lock_loop
    cases hl : P.lock tid m with
    | none => simp [Event.bucket]
    | some r =>
      obtain ⟨rc, m'⟩ := r
      by_cases h0 : rc = 0
      · simp [h0, Event.bucket]
      · by_cases h1 : rc = EINVAL
        · simp only [if_neg h0, if_pos h1]; simp [Event.bucket]
        · simp only [h0, h1, if_false, List.mem_cons, forall_eq_or_imp, Event.bucket, true_and]
          exact ih m'

theorem lock_loop_trace_of_eq {μ : Type} (P : Pthread μ) (tid i fuel : Nat) (m m' : μ)
    (st : Status) (t : List Event) (h : lock_loop P tid i fuel m = (st, m', t)) :
    ∀ ev ∈ t, ev.bucket = i := by
  have := lock_loop_trace_bucket P tid i fuel m
  rw [h] at this
  exact this

theorem add_entry_trace_bucket {μ : Type} (P : Pthread μ) (hash : String → Nat) (cap : Nat)
    (hcap : 0 < cap) (tid fuel : Nat) (T : hash_table_v2 μ cap) (K : String) (V : Nat) :
    ∀ ev ∈ (hash_table_v2_add_entry P hash cap hcap tid fuel T (some K) V).trace,
      ev.bucket = (bucket hash cap hcap K).val := by
  unfold hash_table_v2_add_entry
  simp only [get_hash_table_entry_some, get_list_entry]
  split
  · rename_i m1 t1 h1
    have ht1 := lock_loop_trace_of_eq P tid _ fuel _ m1 _ t1 h1
    split
    · simp at *
    · intro ev hev
      simp only [List.mem_append, List.mem_cons, List.mem_singleton, List.not_mem_nil,
        or_false] at hev
      rcases hev with h | h | h | h
      · exact ht1 ev h
      all_goals subst h; rfl
    · split
      · intro ev hev
        simp only [List.mem_append, List.mem_cons, List.mem_singleton, List.not_mem_nil,
          or_false] at hev
        rcases hev with h | h | h
        · exact ht1 ev h
        all_goals subst h; rfl
      · split
        · rename_i m3 t3 h3
          have ht3 := lock_loop_trace_of_eq P tid _ fuel _ m3 _ t3 h3
          intro ev hev
          simp only [List.mem_append, List.mem_cons, List.mem_singleton, List.not_mem_nil,
            or_false] at hev
          rcases hev with ((h | h | h) | h) | h | h
          · exact ht1 ev h
          · subst h; rfl
          · subst h; rfl
          · exact ht3 ev h
          · subst h; rfl
          · subst h; rfl
        · rename_i st m3 t3 _ h3
          have ht3 := lock_loop_trace_of_eq P tid _ fuel _ m3 _ t3 h3
          intro ev hev
          simp only [List.mem_append, List.mem_cons, List.mem_singleton, List.not_mem_nil,
            or_false] at hev
          rcases hev with (h | h | h) | h
          · exact ht1 ev h
          · subst h; rfl
          · subst h; rfl
          · exact ht3 ev h
  · rename_i st m1 t1 _ h1
    exact lock_loop_trace_of_eq P tid _ fuel _ m1 _ t1 h1

theorem add_entry_frame {μ : Type} (P : Pthread μ) (hash : String → Nat) (cap : Nat)
    (hcap : 0 < cap) (tid fuel : Nat) (T : hash_table_v2 μ cap) (K : String) (V : Nat)
    (j : Fin cap) (hj : j ≠ bucket hash cap hcap K) :
    (hash_table_v2_add_entry P hash cap hcap tid fuel T (some K) V).table.entries j
      = T.entries j := by
  unfold hash_table_v2_add_entry
  simp only [get_hash_table_entry_some, get_list_entry]
  split
  · split
    · simp at *
    · simp [set_mutex_other, set_list_other, hj]
    · split
      · simp [set_mutex_other, set_list_other, hj]
      · split <;> simp [set_mutex_other, set_list_other, hj]
  · simp [set_mutex_other, set_list_other, hj]

/-- A thread whose bucket mutex is held by it exactly inside its critical
sections is never stuck: it has returned, or it can execute its next
statement, which touches no other bucket and keeps the mutex in step. -/
theorem thread_step_own_bucket (hash : String → Nat) (cap : Nat) (hcap : 0 < cap) (tid : Nat)
    (pc : Pc) (k : String) (v : Nat) (T : hash_table_v2 pthread_mutex_t cap)
    (hnc : pc.crashed = false)
    (hm : (T.entries (bucket hash cap hcap k)).mutex
      = ⟨if pc.in_critical then some tid else none⟩) :
    (pc = Pc.done ∧ thread_step errorcheck hash cap hcap tid ⟨pc, some k, v⟩ T = none) ∨
    ∃ pc' T', thread_step errorcheck hash cap hcap tid ⟨pc, some k, v⟩ T
        = some (⟨pc', some k, v⟩, T') ∧
      pc'.crashed = false ∧
      (T'.entries (bucket hash cap hcap k)).mutex
        = ⟨if pc'.in_critical then some tid else none⟩ ∧
      ∀ j, j ≠ bucket hash cap hcap k → T'.entries j = T.entries j := by
  cases pc with
  | done => exact Or.inl ⟨rfl, rfl⟩
  | aborted => simp [Pc.crashed] at hnc
  | exited => simp [Pc.crashed] at hnc
  | entry =>
    exact Or.inr ⟨Pc.lock1, T, rfl, rfl, hm, fun _ _ => rfl⟩
  | alloc =>
    exact Or.inr ⟨Pc.lock2, T, rfl, rfl, hm, fun _ _ => rfl⟩
  | lock1 =>
    simp only [Pc.in_critical, Bool.false_eq_true, if_false] at hm
    refine Or.inr ⟨Pc.scan, T.set_mutex (bucket hash cap hcap k) ⟨some tid⟩, ?_, rfl, ?_,
      fun j hj => set_mutex_other _ _ _ _ hj⟩
    · simp [thread_step, get_hash_table_entry_some, errorcheck, pthread_mutex_lock, hm]
    · simp [Pc.in_critical]
  | lock2 =>
    simp only [Pc.in_critical, Bool.false_eq_true, if_false] at hm
    refine Or.inr ⟨Pc.insert, T.set_mutex (bucket hash cap hcap k) ⟨some tid⟩, ?_, rfl, ?_,
      fun j hj => set_mutex_other _ _ _ _ hj⟩
    · simp [thread_step, get_hash_table_entry_some, errorcheck, pthread_mutex_lock, hm]
    · simp [Pc.in_critical]
  | scan =>
    cases hf : slist_find k (T.entries (bucket hash cap hcap k)).list_head with
    | none =>
      refine Or.inr ⟨Pc.unlock_absent, T, ?_, rfl, hm, fun _ _ => rfl⟩
      simp [thread_step, get_hash_table_entry_some, get_list_entry, hf]
    | some i =>
      refine Or.inr ⟨Pc.store i, T, ?_, rfl, hm, fun _ _ => rfl⟩
      simp [thread_step, get_hash_table_entry_some, get_list_entry, hf]
  | store i =>
    refine Or.inr ⟨Pc.unlock_found, T.set_list (bucket hash cap hcap k)
      (store_value (T.entries (bucket hash cap hcap k)).list_head i v), rfl, rfl, ?_,
      fun j hj => set_list_other _ _ _ _ hj⟩
    simpa [Pc.in_critical] using hm
  | insert =>
    refine Or.inr ⟨Pc.unlock_insert, T.set_list (bucket hash cap hcap k)
      (⟨k, v⟩ :: (T.entries (bucket hash cap hcap k)).list_head), rfl, rfl, ?_,
      fun j hj => set_list_other _ _ _ _ hj⟩
    simpa [Pc.in_critical] using hm
  | unlock_found =>
    simp only [Pc.in_critical, if_true] at hm
    refine Or.inr ⟨Pc.done, T.set_mutex (bucket hash cap hcap k) ⟨none⟩, ?_, rfl, ?_,
      fun j hj => set_mutex_other _ _ _ _ hj⟩
    · simp [thread_step, get_hash_table_entry_some, errorcheck, pthread_mutex_unlock, hm]
    · simp [Pc.in_critical]
  | unlock_absent =>
    simp only [Pc.in_critical, if_true] at hm
    refine Or.inr ⟨Pc.alloc, T.set_mutex (bucket hash cap hcap k) ⟨none⟩, ?_, rfl, ?_,
      fun j hj => set_mutex_other _ _ _ _ hj⟩
    · simp [thread_step, get_hash_table_entry_some, errorcheck, pthread_mutex_unlock, hm]
    · simp [Pc.in_critical]
  | unlock_insert =>
    simp only [Pc.in_critical, if_true] at hm
    refine Or.inr ⟨Pc.done, T.set_mutex (bucket hash cap hcap k) ⟨none⟩, ?_, rfl, ?_,
      fun j hj => set_mutex_other _ _ _ _ hj⟩
    · simp [thread_step, get_hash_table_entry_some, errorcheck, pthread_mutex_unlock, hm]
    · simp [Pc.in_critical]

theorem two_threads_step (hash : String → Nat) (cap : Nat) (hcap : 0 < cap) (K1 K2 : String)
    (V1 V2 : Nat) (hb : bucket hash cap hcap K1 ≠ bucket hash cap hcap K2)
    (s s' : System pthread_mutex_t cap) (tid : Nat)
    (h : two_threads_inv hash cap hcap K1 K2 V1 V2 s)
    (hs : sys_step errorcheck hash cap hcap s tid = some s') :
    two_threads_inv hash cap hcap K1 K2 V1 V2 s' := by
  obtain ⟨pc0, pc1, hth, hc0, hc1, hm0, hm1⟩ := h
  unfold sys_step at hs
  simp only [hth, List.any_cons, hc0, hc1, List.any_nil, Bool.or_self, Bool.false_eq_true,
    if_false] at hs
  match tid with
  | 0 =>
    simp only [List.getElem?_cons_zero] at hs
    rcases thread_step_own_bucket hash cap hcap 0 pc0 K1 V1 s.table hc0 hm0 with
      ⟨_, hnone⟩ | ⟨pc', T', hstep, hc', hm', hfr⟩
    · rw [hnone] at hs; cases hs
    · rw [hstep] at hs
      simp only [Option.some.injEq] at hs
      subst hs
      refine ⟨pc', pc1, by simp, hc', hc1, hm', ?_⟩
      show (T'.entries _).mutex = _
      rw [hfr _ (Ne.symm hb)]
      exact hm1
  | 1 =>
    simp only [List.getElem?_cons_succ, List.getElem?_cons_zero] at hs
    rcases thread_step_own_bucket hash cap hcap 1 pc1 K2 V2 s.table hc1 hm1 with
      ⟨_, hnone⟩ | ⟨pc', T', hstep, hc', hm', hfr⟩
    · rw [hnone] at hs; cases hs
    · rw [hstep] at hs
      simp only [Option.some.injEq] at hs
      subst hs
      refine ⟨pc0, pc', by simp, hc0, hc', ?_, hm'⟩
      show (T'.entries _).mutex = _
      rw [hfr _ hb]
      exact hm0
  | n + 2 => simp at hs

theorem two_threads_run (hash : String → Nat) (cap : Nat) (hcap : 0 < cap) (K1 K2 : String)
    (V1 V2 : Nat) (hb : bucket hash cap hcap K1 ≠ bucket hash cap hcap K2)
    (sched : List Nat) (s s' : System pthread_mutex_t cap)
    (h : two_threads_inv hash cap hcap K1 K2 V1 V2 s)
    (hs : sys_run errorcheck hash cap hcap s sched = some s') :
    two_threads_inv hash cap hcap K1 K2 V1 V2 s' := by
  induction sched generalizing s with
  | nil =>
    simp only [sys_run, Option.some.injEq] at hs
    subst hs
    exact h
  | cons tid rest ih =>
    unfold sys_run at hs
    cases hstep : sys_step errorcheck hash cap hcap s tid with
    | none => rw [hstep] at hs; cases hs
    | some s1 =>
      rw [hstep] at hs
      exact ih s1 (two_threads_step hash cap hcap K1 K2 V1 V2 hb s s1 tid h hstep) hs

theorem two_threads_not_blocked (hash : String → Nat) (cap : Nat) (hcap : 0 < cap)
    (K1 K2 : String) (V1 V2 : Nat) (s : System pthread_mutex_t cap)
    (h : two_threads_inv hash cap hcap K1 K2 V1 V2 s) :
    sys_blocked errorcheck hash cap hcap s 0 = false ∧
    sys_blocked errorcheck hash cap hcap s 1 = false := by
  obtain ⟨pc0, pc1, hth, hc0, hc1, hm0, hm1⟩ := h
  constructor
  · rcases thread_step_own_bucket hash cap hcap 0 pc0 K1 V1 s.table hc0 hm0 with
      ⟨hd, _⟩ | ⟨pc', T', hstep, _⟩
    · simp [sys_blocked, hth, hd, Pc.finished]
    · simp [sys_blocked, hth, hstep]
  · rcases thread_step_own_bucket hash cap hcap 1 pc1 K2 V2 s.table hc1 hm1 with
      ⟨hd, _⟩ | ⟨pc', T', hstep, _⟩
    · simp [sys_blocked, hth, hd, Pc.finished]
    · simp [sys_blocked, hth, hstep]

/-- C10: `add_entry` makes every mutex call (and every chain access) on the
bucket `hash(key) mod capacity` and leaves every other bucket, mutex
included, as it was, whatever the mutex calls return; and when two threads
call `add_entry` with keys of different buckets on a table whose mutexes are
free, in no interleaving is either thread ever stuck in
`pthread_mutex_lock`. -/
theorem different_buckets_never_share_a_lock (hash : String → Nat) (cap : Nat) (hcap : 0 < cap)
    (K1 K2 : String) (V1 V2 : Nat)
    (hb : bucket hash cap hcap K1 ≠ bucket hash cap hcap K2) :
    (∀ (μ : Type) (P : Pthread μ) (tid fuel : Nat) (T : hash_table_v2 μ cap),
      (∀ ev ∈ (hash_table_v2_add_entry P hash cap hcap tid fuel T (some K1) V1).trace,
        ev.bucket = (hash K1 % 2 ^ 32) % cap) ∧
      (∀ j, j ≠ bucket hash cap hcap K1 →
        (hash_table_v2_add_entry P hash cap hcap tid fuel T (some K1) V1).table.entries j
          = T.entries j) ∧
      (hash_table_v2_add_entry P hash cap hcap tid fuel T (some K1) V1).table.entries
          (bucket hash cap hcap K2) = T.entries (bucket hash cap hcap K2)) ∧
    ∀ (T : hash_table_v2 pthread_mutex_t cap), (∀ i, (T.entries i).mutex = ⟨none⟩) →
      ∀ (sched : List Nat) (s' : System pthread_mutex_t cap),
        sys_run errorcheck hash cap hcap
          ⟨[⟨Pc.entry, some K1, V1⟩, ⟨Pc.entry, some K2, V2⟩], T⟩ sched = some s' →
        sys_blocked errorcheck hash cap hcap s' 0 = false ∧
        sys_blocked errorcheck hash cap hcap s' 1 = false := by
  refine ⟨fun μ P tid fuel T => ⟨?_, ?_, ?_⟩, fun T hfree sched s' hrun => ?_⟩
  · exact add_entry_trace_bucket P hash cap hcap tid fuel T K1 V1
  · exact fun j hj => add_entry_frame P hash cap hcap tid fuel T K1 V1 j hj
  · exact add_entry_frame P hash cap hcap tid fuel T K1 V1 _ (Ne.symm hb)
  · apply two_threads_not_blocked hash cap hcap K1 K2 V1 V2
    refine two_threads_run hash cap hcap K1 K2 V1 V2 hb sched _ s' ?_ hrun
    exact ⟨Pc.entry, Pc.entry, rfl, rfl, rfl, by simpa [Pc.in_critical] using hfree _,
      by simpa [Pc.in_critical] using hfree _⟩

/-- Contrast to C10: two threads on the same bucket do block each other.
Once thread `0` holds the mutex, thread `1` is stuck at its first
`pthread_mutex_lock`. -/
theorem same_bucket_blocks :
    ∃ s', sys_run errorcheck String.length 4 (by decide)
        ⟨[⟨Pc.entry, some "a", 1⟩, ⟨Pc.entry, some "b", 2⟩], ⟨fun _ => ⟨[], ⟨none⟩⟩⟩⟩ [0, 0, 1]
        = some s' ∧
      sys_blocked errorcheck String.length 4 (by decide) s' 1 = true :=
  ⟨_, rfl, by decide⟩

/-- Instance of C10: keys `"a"` and `"bb"` fall in buckets `1` and `2` of
four; after both threads have taken their locks neither is stuck. -/
theorem different_buckets_never_share_a_lock_witness :
    bucket String.length 4 (by decide) "a" ≠ bucket String.length 4 (by decide) "bb" ∧
    ∃ s', sys_run errorcheck String.length 4 (by decide)
        ⟨[⟨Pc.entry, some "a", 1⟩, ⟨Pc.entry, some "bb", 2⟩], ⟨fun _ => ⟨[], ⟨none⟩⟩⟩⟩
        [0, 0, 1, 1] = some s' ∧
      sys_blocked errorcheck String.length 4 (by decide) s' 0 = false ∧
      sys_blocked errorcheck String.length 4 (by decide) s' 1 = false :=
  ⟨by decide, _, rfl,
    (different_buckets_never_share_a_lock String.length 4 (by decide) "a" "bb" 1 2
      (by decide)).2 ⟨fun _ => ⟨[], ⟨none⟩⟩⟩ (fun _ => rfl) [0, 0, 1, 1] _ rfl⟩

/-- The two embeddings of `hash_table_v2_add_entry` agree: a thread running
alone on a free bucket mutex returns after five or eight statements and leaves
the table that the function computes. -/
theorem solo_run_agrees (hash : String → Nat) (cap : Nat) (hcap : 0 < cap)
    (T : hash_table_v2 pthread_mutex_t cap) (k : String) (v : Nat)
    (hfree : (T.entries (bucket hash cap hcap k)).mutex = ⟨none⟩) :
    ∃ n, sys_run errorcheck hash cap hcap ⟨[⟨Pc.entry, some k, v⟩], T⟩ (List.replicate n 0)
      = some ⟨[⟨Pc.done, some k, v⟩],
          (hash_table_v2_add_entry errorcheck hash cap hcap 0 1 T (some k) v).table⟩ := by
  rw [(add_entry_free hash cap hcap 0 0 T k v hfree).2]
  cases hf : slist_find k (T.entries (bucket hash cap hcap k)).list_head with
  | none =>
    refine ⟨8, ?_⟩
    simp [List.replicate, sys_run, sys_step, thread_step, get_hash_table_entry_some,
      get_list_entry, hf, hfree, errorcheck, pthread_mutex_lock, pthread_mutex_unlock, Pc.crashed,
      chain_add, EINVAL]
    apply hash_table_v2.ext_entries
    intro j
    by_cases hj : j = bucket hash cap hcap k
    · subst hj; simp [hfree]
    · simp [set_mutex_other, set_list_other, hj]
  | some i =>
    refine ⟨5, ?_⟩
    simp [List.replicate, sys_run, sys_step, thread_step, get_hash_table_entry_some,
      get_list_entry, hf, hfree, errorcheck, pthread_mutex_lock, pthread_mutex_unlock, Pc.crashed,
      chain_add, EINVAL]
    apply hash_table_v2.ext_entries
    intro j
    by_cases hj : j = bucket hash cap hcap k
    · subst hj; simp [hfree]
    · simp [set_mutex_other, set_list_other, hj]

/-! ## What a call does to the chain of its bucket -/

/-- Whatever the mutex calls return, a call leaves the chain of the key's
bucket either as `chain_add` makes it, or untouched, and in the second case
the call has not returned. -/
theorem add_entry_chain {μ : Type} (P : Pthread μ) (hash : String → Nat) (cap : Nat)
    (hcap : 0 < cap) (tid fuel : Nat) (T : hash_table_v2 μ cap) (K : String) (V : Nat) :
    ((hash_table_v2_add_entry P hash cap hcap tid fuel T (some K) V).table.entries
        (bucket hash cap hcap K)).list_head
      = chain_add K V (T.entries (bucket hash cap hcap K)).list_head ∨
    (((hash_table_v2_add_entry P hash cap hcap tid fuel T (some K) V).table.entries
        (bucket hash cap hcap K)).list_head = (T.entries (bucket hash cap hcap K)).list_head ∧
      (hash_table_v2_add_entry P hash cap hcap tid fuel T (some K) V).status
        ≠ Status.returned) := by
  unfold hash_table_v2_add_entry
  simp only [get_hash_table_entry_some, get_list_entry]
  split
  · split
    · simp at *
    · rename_i i hi
      simp only [set_mutex_same, Result.ok.injEq] at hi
      left
      simp [chain_add, hi]
    · rename_i hi
      simp only [set_mutex_same, Result.ok.injEq] at hi
      split
      · right
        simp
      · split
        · left
          simp [chain_add, hi]
        · rename_i st m3 t3 hne h3
          right
          refine ⟨by simp, ?_⟩
          intro h
          exact hne h
  · rename_i st m1 t1 hne h1
    right
    refine ⟨by simp, ?_⟩
    intro h
    exact hne h

theorem contains_exec_result {μ : Type} (hash : String → Nat) (cap : Nat) (hcap : 0 < cap)
    (T : hash_table_v2 μ cap) (key : Option String) :
    (hash_table_v2_contains_exec hash cap hcap T key).result
      = hash_table_v2_contains hash cap hcap T key := by
  unfold hash_table_v2_contains_exec hash_table_v2_contains
  split
  · rfl
  · split <;> rfl

theorem get_value_exec_result {μ : Type} (hash : String → Nat) (cap : Nat) (hcap : 0 < cap)
    (T : hash_table_v2 μ cap) (key : Option String) :
    (hash_table_v2_get_value_exec hash cap hcap T key).result
      = hash_table_v2_get_value hash cap hcap T key := by
  unfold hash_table_v2_get_value_exec hash_table_v2_get_value
  split
  · rfl
  · split
    · rfl
    · rfl
    · split <;> rfl

theorem contains_exec_table {μ : Type} (hash : String → Nat) (cap : Nat) (hcap : 0 < cap)
    (T : hash_table_v2 μ cap) (key : Option String) :
    (hash_table_v2_contains_exec hash cap hcap T key).table = T := by
  unfold hash_table_v2_contains_exec
  split
  · rfl
  · split <;> rfl

theorem get_value_exec_table {μ : Type} (hash : String → Nat) (cap : Nat) (hcap : 0 < cap)
    (T : hash_table_v2 μ cap) (key : Option String) :
    (hash_table_v2_get_value_exec hash cap hcap T key).table = T := by
  unfold hash_table_v2_get_value_exec
  split
  · rfl
  · split
    · rfl
    · rfl
    · split <;> rfl

/-- C11: for every table state, key `K` and value `V`, and whatever the mutex
calls return, `add_entry(K, V)` leaves every bucket other than the one at
index `hash(K) mod capacity` exactly as it was, chain (keys, values, order)
and mutex, so it changes at most the chain of that one bucket; with a null
key it changes nothing; and `contains` and `get_value` hand back the table
with every bucket unchanged. -/
theorem add_entry_changes_only_its_bucket {μ : Type} (P : Pthread μ) (hash : String → Nat)
    (cap : Nat) (hcap : 0 < cap) (tid fuel : Nat) (T : hash_table_v2 μ cap) (K : String)
    (V : Nat) :
    (∀ j : Fin cap, j.val ≠ (hash K % 2 ^ 32) % cap →
      ((hash_table_v2_add_entry P hash cap hcap tid fuel T (some K) V).table.entries j).list_head
        = (T.entries j).list_head ∧
      (hash_table_v2_add_entry P hash cap hcap tid fuel T (some K) V).table.entries j
        = T.entries j) ∧
    (hash_table_v2_add_entry P hash cap hcap tid fuel T none V).table = T ∧
    (∀ key j, (hash_table_v2_contains_exec hash cap hcap T key).table.entries j = T.entries j) ∧
    (∀ key j, (hash_table_v2_get_value_exec hash cap hcap T key).table.entries j
      = T.entries j) ∧
    (∀ key, (hash_table_v2_contains_exec hash cap hcap T key).result
      = hash_table_v2_contains hash cap hcap T key) ∧
    (∀ key, (hash_table_v2_get_value_exec hash cap hcap T key).result
      = hash_table_v2_get_value hash cap hcap T key) := by
  refine ⟨fun j hj => ?_, rfl, fun key j => ?_, fun key j => ?_,
    contains_exec_result hash cap hcap T, get_value_exec_result hash cap hcap T⟩
  · have hne : j ≠ bucket hash cap hcap K := by
      intro h
      apply hj
      rw [h]
      rfl
    have := add_entry_frame P hash cap hcap tid fuel T K V j hne
    exact ⟨by rw [this], this⟩
  · rw [contains_exec_table]
  · rw [get_value_exec_table]

/-- Instance of C11: adding `"bb"` (bucket `2` of four) leaves bucket `1`,
which holds `"a"`, as it was. -/
theorem add_entry_changes_only_its_bucket_witness :
    0 < 4 ∧
    ((hash_table_v2_add_entry errorcheck String.length 4 (by decide) 0 1
        (⟨fun _ => ⟨[⟨"a", 7⟩], ⟨none⟩⟩⟩ : hash_table_v2 pthread_mutex_t 4) (some "bb") 5).table.entries
        1).list_head = [⟨"a", 7⟩] :=
  ⟨by decide, ((add_entry_changes_only_its_bucket errorcheck String.length 4 (by decide) 0 1
    (⟨fun _ => ⟨[⟨"a", 7⟩], ⟨none⟩⟩⟩ : hash_table_v2 pthread_mutex_t 4) "bb" 5).1 1
      (by decide)).1⟩

/-- C12: for every table state, all keys `K ≠ K'` and every value `V`, and
whatever the mutex calls return, `add_entry(K, V)` leaves the result of
`contains(K')` and the result of `get_value(K')` unchanged (the value when
`K'` is present, the failed assertion when it is not), whether or not the two
keys hash to the same bucket. -/
theorem add_entry_keeps_other_keys {μ : Type} (P : Pthread μ) (hash : String → Nat)
    (cap : Nat) (hcap : 0 < cap) (tid fuel : Nat) (T : hash_table_v2 μ cap) (K K' : String)
    (V : Nat) (hne : K ≠ K') :
    hash_table_v2_contains hash cap hcap
        (hash_table_v2_add_entry P hash cap hcap tid fuel T (some K) V).table (some K')
      = hash_table_v2_contains hash cap hcap T (some K') ∧
    hash_table_v2_get_value hash cap hcap
        (hash_table_v2_add_entry P hash cap hcap tid fuel T (some K) V).table (some K')
      = hash_table_v2_get_value hash cap hcap T (some K') := by
  have hval : chain_value K'
      ((hash_table_v2_add_entry P hash cap hcap tid fuel T (some K) V).table.entries
        (bucket hash cap hcap K')).list_head
      = chain_value K' (T.entries (bucket hash cap hcap K')).list_head := by
    by_cases hb : bucket hash cap hcap K' = bucket hash cap hcap K
    · rw [hb]
      rcases add_entry_chain P hash cap hcap tid fuel T K V with h | ⟨h, _⟩
      · rw [h, chain_value_add_other K K' V _ (Ne.symm hne)]
      · rw [h]
    · rw [add_entry_frame P hash cap hcap tid fuel T K V _ hb]
  rw [contains_eq, contains_eq, get_value_eq, get_value_eq, hval]
  exact ⟨rfl, rfl⟩

/-- Instance of C12: `"a"` and `"b"` collide in bucket `1` of four; adding
`"a"` leaves the value of `"b"`. -/
theorem add_entry_keeps_other_keys_witness :
    "a" ≠ "b" ∧
    hash_table_v2_get_value String.length 4 (by decide)
        (hash_table_v2_add_entry errorcheck String.length 4 (by decide) 0 1
          (⟨fun _ => ⟨[⟨"b", 7⟩], ⟨none⟩⟩⟩ : hash_table_v2 pthread_mutex_t 4) (some "a") 5).table
        (some "b")
      = hash_table_v2_get_value String.length 4 (by decide)
        (⟨fun _ => ⟨[⟨"b", 7⟩], ⟨none⟩⟩⟩ : hash_table_v2 pthread_mutex_t 4) (some "b") :=
  ⟨by decide, (add_entry_keeps_other_keys errorcheck String.length 4 (by decide) 0 1
    (⟨fun _ => ⟨[⟨"b", 7⟩], ⟨none⟩⟩⟩ : hash_table_v2 pthread_mutex_t 4) "a" "b" 5 (by decide)).2⟩

theorem add_entry_returned_chain {μ : Type} (P : Pthread μ) (hash : String → Nat) (cap : Nat)
    (hcap : 0 < cap) (tid fuel : Nat) (T : hash_table_v2 μ cap) (K : String) (V : Nat)
    (hret : (hash_table_v2_add_entry P hash cap hcap tid fuel T (some K) V).status
      = Status.returned) :
    ((hash_table_v2_add_entry P hash cap hcap tid fuel T (some K) V).table.entries
        (bucket hash cap hcap K)).list_head
      = chain_add K V (T.entries (bucket hash cap hcap K)).list_head := by
  rcases add_entry_chain P hash cap hcap tid fuel T K V with h | ⟨_, h⟩
  · exact h
  · exact absurd hret h

theorem store_value_getElem (l : List list_entry) (i j v : Nat) :
    (store_value l i v)[j]?
      = if j = i then (l[i]?).map (fun e => (⟨e.key, v⟩ : list_entry)) else l[j]? := by
  induction l generalizing i j with
  | nil => simp [store_value]
  | cons e rest ih =>
    cases i with
    | zero =>
      cases j with
      | zero => simp [store_value]
      | succ j' => simp [store_value]
    | succ i' =>
      cases j with
      | zero => simp [store_value]
      | succ j' => simp [store_value, ih]

/-- Calls made by a call that finds the bucket mutex free: one locked scan,
then the store on the update path, or a second locked section with the
insertion. -/
theorem add_entry_free_trace (hash : String → Nat) (cap : Nat) (hcap : 0 < cap) (tid fuel : Nat)
    (T : hash_table_v2 pthread_mutex_t cap) (k : String) (v : Nat)
    (hfree : (T.entries (bucket hash cap hcap k)).mutex = ⟨none⟩) :
    (hash_table_v2_add_entry errorcheck hash cap hcap tid (fuel + 1) T (some k) v).trace
      = match slist_find k (T.entries (bucket hash cap hcap k)).list_head with
        | some _ =>
          [Event.lock (bucket hash cap hcap k) 0, Event.scan (bucket hash cap hcap k),
            Event.store (bucket hash cap hcap k), Event.unlock (bucket hash cap hcap k) 0]
        | none =>
          [Event.lock (bucket hash cap hcap k) 0, Event.scan (bucket hash cap hcap k),
            Event.unlock (bucket hash cap hcap k) 0, Event.lock (bucket hash cap hcap k) 0,
            Event.insert_head (bucket hash cap hcap k), Event.unlock (bucket hash cap hcap k) 0] := by
  unfold hash_table_v2_add_entry
  simp only [get_hash_table_entry_some, hfree, lock_loop_free, get_list_entry, set_mutex_same]
  cases hf : slist_find k (T.entries (bucket hash cap hcap k)).list_head with
  | none =>
    simp [errorcheck_unlock, pthread_mutex_unlock, lock_loop_free]
  | some i =>
    simp [errorcheck_unlock, pthread_mutex_unlock]

/-- C13: for every table state and every key `K` absent from the chain of
its bucket, a returning `add_entry(K, V)` makes that chain the new node
`(K, V)` followed by the previous chain unchanged, so the chain grows by
exactly one node and the newly inserted key is first. The call does return
when it finds the bucket mutex free; and the chain is as stated for every
mutex behaviour under which the call returns. -/
theorem add_entry_inserts_at_head (hash : String → Nat) (cap : Nat) (hcap : 0 < cap)
    (K : String) (V : Nat) :
    (∀ (tid fuel : Nat) (T : hash_table_v2 pthread_mutex_t cap),
      (T.entries (bucket hash cap hcap K)).mutex = ⟨none⟩ →
      (∀ e ∈ (T.entries (bucket hash cap hcap K)).list_head, e.key ≠ K) →
      (hash_table_v2_add_entry errorcheck hash cap hcap tid (fuel + 1) T (some K) V).status
        = Status.returned ∧
      ((hash_table_v2_add_entry errorcheck hash cap hcap tid (fuel + 1) T (some K) V).table.entries
          (bucket hash cap hcap K)).list_head
        = ⟨K, V⟩ :: (T.entries (bucket hash cap hcap K)).list_head ∧
      ((hash_table_v2_add_entry errorcheck hash cap hcap tid (fuel + 1) T (some K) V).table.entries
          (bucket hash cap hcap K)).list_head.length
        = (T.entries (bucket hash cap hcap K)).list_head.length + 1 ∧
      ((hash_table_v2_add_entry errorcheck hash cap hcap tid (fuel + 1) T (some K) V).table.entries
          (bucket hash cap hcap K)).list_head.head? = some ⟨K, V⟩) ∧
    ∀ (μ : Type) (P : Pthread μ) (tid fuel : Nat) (T : hash_table_v2 μ cap),
      (∀ e ∈ (T.entries (bucket hash cap hcap K)).list_head, e.key ≠ K) →
      (hash_table_v2_add_entry P hash cap hcap tid fuel T (some K) V).status = Status.returned →
      ((hash_table_v2_add_entry P hash cap hcap tid fuel T (some K) V).table.entries
          (bucket hash cap hcap K)).list_head
        = ⟨K, V⟩ :: (T.entries (bucket hash cap hcap K)).list_head := by
  have hfresh : ∀ l : List list_entry, (∀ e ∈ l, e.key ≠ K) → chain_add K V l = ⟨K, V⟩ :: l := by
    intro l hl
    simp [chain_add, (slist_find_none_iff K l).mpr hl]
  constructor
  · intro tid fuel T hfree habs
    have h := add_entry_free hash cap hcap tid fuel T K V hfree
    refine ⟨h.1, ?_, ?_, ?_⟩
    · rw [h.2, set_list_same, hfresh _ habs]
    · rw [h.2, set_list_same, hfresh _ habs]; rfl
    · rw [h.2, set_list_same, hfresh _ habs]; rfl
  · intro μ P tid fuel T habs hret
    rw [add_entry_returned_chain P hash cap hcap tid fuel T K V hret, hfresh _ habs]

/-- Instance of C13: `"a"` is added to a bucket that holds `"b"`. -/
theorem add_entry_inserts_at_head_witness :
    ((⟨fun _ => ⟨[⟨"b", 7⟩], ⟨none⟩⟩⟩ : hash_table_v2 pthread_mutex_t 4).entries
        (bucket String.length 4 (by decide) "a")).mutex = ⟨none⟩ ∧
    (∀ e ∈ ((⟨fun _ => ⟨[⟨"b", 7⟩], ⟨none⟩⟩⟩ : hash_table_v2 pthread_mutex_t 4).entries
        (bucket String.length 4 (by decide) "a")).list_head, e.key ≠ "a") ∧
    ((hash_table_v2_add_entry errorcheck String.length 4 (by decide) 0 1
        (⟨fun _ => ⟨[⟨"b", 7⟩], ⟨none⟩⟩⟩ : hash_table_v2 pthread_mutex_t 4) (some "a") 5).table.entries
        (bucket String.length 4 (by decide) "a")).list_head
      = ⟨"a", 5⟩ :: ((⟨fun _ => ⟨[⟨"b", 7⟩], ⟨none⟩⟩⟩ : hash_table_v2 pthread_mutex_t 4).entries
        (bucket String.length 4 (by decide) "a")).list_head :=
  have habs : ∀ e ∈ ((⟨fun _ => ⟨[⟨"b", 7⟩], ⟨none⟩⟩⟩ : hash_table_v2 pthread_mutex_t 4).entries
      (bucket String.length 4 (by decide) "a")).list_head, e.key ≠ "a" := by
    intro e he
    simp only [List.mem_singleton] at he
    subst he
    decide
  ⟨rfl, habs, ((add_entry_inserts_at_head String.length 4 (by decide) "a" 5).1 0 0
    (⟨fun _ => ⟨[⟨"b", 7⟩], ⟨none⟩⟩⟩ : hash_table_v2 pthread_mutex_t 4) rfl habs).2.1⟩

/-- C14: for every table state and every key `K` present in the chain of its
bucket, with `i` the position of the first node whose key is `K`: a returning
`add_entry(K, V)` leaves the chain's length and its sequence of keys
unchanged, sets the value of the node at position `i` to `V` and leaves every
other node as it was; it makes no insertion (its calls are the lock, the scan, the store and
the unlock, with no `SLIST_INSERT_HEAD`, and the node count of the table is
unchanged). The call does return when it finds
the bucket mutex free, and the chain is as stated for every mutex behaviour
under which the call returns. -/
theorem add_entry_updates_in_place (hash : String → Nat) (cap : Nat) (hcap : 0 < cap)
    (K : String) (V : Nat) :
    (∀ (tid fuel i : Nat) (T : hash_table_v2 pthread_mutex_t cap),
      (T.entries (bucket hash cap hcap K)).mutex = ⟨none⟩ →
      slist_find K (T.entries (bucket hash cap hcap K)).list_head = some i →
      (hash_table_v2_add_entry errorcheck hash cap hcap tid (fuel + 1) T (some K) V).status
        = Status.returned ∧
      (hash_table_v2_add_entry errorcheck hash cap hcap tid (fuel + 1) T (some K) V).trace
        = [Event.lock (bucket hash cap hcap K) 0, Event.scan (bucket hash cap hcap K),
            Event.store (bucket hash cap hcap K), Event.unlock (bucket hash cap hcap K) 0] ∧
      node_count (hash_table_v2_add_entry errorcheck hash cap hcap tid (fuel + 1) T (some K) V).table
        = node_count T) ∧
    (∀ (μ : Type) (P : Pthread μ) (tid fuel i : Nat) (T : hash_table_v2 μ cap),
      slist_find K (T.entries (bucket hash cap hcap K)).list_head = some i →
      (hash_table_v2_add_entry P hash cap hcap tid fuel T (some K) V).status = Status.returned →
      ((hash_table_v2_add_entry P hash cap hcap tid fuel T (some K) V).table.entries
          (bucket hash cap hcap K)).list_head.length
        = (T.entries (bucket hash cap hcap K)).list_head.length ∧
      ((hash_table_v2_add_entry P hash cap hcap tid fuel T (some K) V).table.entries
          (bucket hash cap hcap K)).list_head.map list_entry.key
        = (T.entries (bucket hash cap hcap K)).list_head.map list_entry.key ∧
      ((hash_table_v2_add_entry P hash cap hcap tid fuel T (some K) V).table.entries
          (bucket hash cap hcap K)).list_head[i]? = some ⟨K, V⟩ ∧
      (∀ j, j ≠ i →
        ((hash_table_v2_add_entry P hash cap hcap tid fuel T (some K) V).table.entries
          (bucket hash cap hcap K)).list_head[j]?
          = (T.entries (bucket hash cap hcap K)).list_head[j]?) ∧
      (∀ j e, j < i → (T.entries (bucket hash cap hcap K)).list_head[j]? = some e →
        e.key ≠ K)) := by
  constructor
  · intro tid fuel i T hfree hfind
    have h := add_entry_free hash cap hcap tid fuel T K V hfree
    refine ⟨h.1, ?_, ?_⟩
    · rw [add_entry_free_trace hash cap hcap tid fuel T K V hfree, hfind]
    · rw [h.2]
      apply node_count_set_list
      simp [chain_add, hfind, store_value_length]
  · intro μ P tid fuel i T hfind hret
    have hc := add_entry_returned_chain P hash cap hcap tid fuel T K V hret
    have hst : chain_add K V (T.entries (bucket hash cap hcap K)).list_head
        = store_value (T.entries (bucket hash cap hcap K)).list_head i V := by
      simp [chain_add, hfind]
    obtain ⟨e, h1, h2, _⟩ := slist_find_get K _ i hfind
    rw [hc, hst]
    refine ⟨store_value_length _ i V, store_value_keys _ i V, ?_, fun j hj => ?_,
      slist_find_first K _ i hfind⟩
    · rw [store_value_getElem, if_pos rfl, h1]
      simp [h2]
    · rw [store_value_getElem, if_neg hj]

/-- Instance of C14: `"a"` is the second node of its chain, behind `"b"`. -/
theorem add_entry_updates_in_place_witness :
    slist_find "a" ((⟨fun _ => ⟨[⟨"b", 7⟩, ⟨"a", 1⟩], ⟨none⟩⟩⟩ :
        hash_table_v2 pthread_mutex_t 4).entries (bucket String.length 4 (by decide) "a")).list_head
      = some 1 ∧
    (hash_table_v2_add_entry errorcheck String.length 4 (by decide) 0 1
        (⟨fun _ => ⟨[⟨"b", 7⟩, ⟨"a", 1⟩], ⟨none⟩⟩⟩ : hash_table_v2 pthread_mutex_t 4)
        (some "a") 5).status = Status.returned ∧
    ((hash_table_v2_add_entry errorcheck String.length 4 (by decide) 0 1
        (⟨fun _ => ⟨[⟨"b", 7⟩, ⟨"a", 1⟩], ⟨none⟩⟩⟩ : hash_table_v2 pthread_mutex_t 4)
        (some "a") 5).table.entries (bucket String.length 4 (by decide) "a")).list_head[1]?
      = some ⟨"a", 5⟩ :=
  have hfind : slist_find "a" ((⟨fun _ => ⟨[⟨"b", 7⟩, ⟨"a", 1⟩], ⟨none⟩⟩⟩ :
      hash_table_v2 pthread_mutex_t 4).entries (bucket String.length 4 (by decide) "a")).list_head
      = some 1 := by decide
  have h := add_entry_updates_in_place String.length 4 (by decide) "a" 5
  have hret := (h.1 0 0 1 (⟨fun _ => ⟨[⟨"b", 7⟩, ⟨"a", 1⟩], ⟨none⟩⟩⟩ :
    hash_table_v2 pthread_mutex_t 4) rfl hfind).1
  ⟨hfind, hret, (h.2 pthread_mutex_t errorcheck 0 1 1 _ hfind hret).2.2.1⟩

/-- C15: the bucket index that `get_hash_table_entry` computes for a key is
`hash(key) mod capacity`, with `hash(key)` the 32-bit result of the hash
function; it is below the capacity, so the access to `entries` is in bounds;
it is the same whatever the table holds (the computation does not read the
table, and `contains`, `get_value` and `add_entry` on that key touch that
bucket in every table); and in every state reachable from `create` by `add_entry` calls
each node stored in bucket `i` has a key whose index is `i`. -/
theorem bucket_placement (hash : String → Nat) (cap : Nat) (hcap : 0 < cap) (K : String) :
    (∃ idx : Fin cap, get_hash_table_entry hash cap hcap (some K) = Result.ok idx ∧
      idx.val = (hash K % 2 ^ 32) % cap ∧ idx.val < cap ∧
      (hash K < 2 ^ 32 → idx.val = hash K % cap)) ∧
    (∀ (μ : Type) (P : Pthread μ) (tid fuel V : Nat) (T : hash_table_v2 μ cap),
      (hash_table_v2_contains_exec hash cap hcap T (some K)).trace
        = [Event.scan ((hash K % 2 ^ 32) % cap)] ∧
      (hash_table_v2_get_value_exec hash cap hcap T (some K)).trace
        = [Event.scan ((hash K % 2 ^ 32) % cap)] ∧
      ∀ ev ∈ (hash_table_v2_add_entry P hash cap hcap tid fuel T (some K) V).trace,
        ev.bucket = (hash K % 2 ^ 32) % cap) ∧
    (∀ (T : hash_table_v2 pthread_mutex_t cap) (i : Fin cap), Reachable hash cap hcap T →
      ∀ e ∈ (T.entries i).list_head,
        get_hash_table_entry hash cap hcap (some e.key) = Result.ok i ∧
        (hash e.key % 2 ^ 32) % cap = i.val) := by
  refine ⟨?_, ?_, ?_⟩
  · refine ⟨bucket hash cap hcap K, rfl, rfl, (bucket hash cap hcap K).isLt, fun h => ?_⟩
    show (hash K % 2 ^ 32) % cap = hash K % cap
    rw [Nat.mod_eq_of_lt h]
  · intro μ P tid fuel V T
    refine ⟨rfl, ?_, add_entry_trace_bucket P hash cap hcap tid fuel T K V⟩
    unfold hash_table_v2_get_value_exec
    simp only [get_hash_table_entry_some, get_list_entry]
    split
    · rename_i h; cases h
    · rfl
    · split <;> rfl
  · intro T i hT e he
    have := (reachable_inv hash cap hcap T hT).placed i e he
    refine ⟨by rw [get_hash_table_entry_some, this], ?_⟩
    rw [← this]
    rfl

/-- Instance of C15: the key `"bb"` with four buckets hashed by string length, on the
table left by `add_entry("bb", 1)`. -/
theorem bucket_placement_witness :
    Reachable String.length 4 (by decide)
      (hash_table_v2_add_entry errorcheck String.length 4 (by decide) 0 1
        ⟨fun _ => ⟨[], ⟨none⟩⟩⟩ (some "bb") 1).table ∧
    ∀ e ∈ ((hash_table_v2_add_entry errorcheck String.length 4 (by decide) 0 1
        ⟨fun _ => ⟨[], ⟨none⟩⟩⟩ (some "bb") 1).table.entries 2).list_head,
      get_hash_table_entry String.length 4 (by decide) (some e.key) = Result.ok 2 ∧
      (String.length e.key % 2 ^ 32) % 4 = (2 : Fin 4).val :=
  have hR : Reachable String.length 4 (by decide)
      (hash_table_v2_add_entry errorcheck String.length 4 (by decide) 0 1
        ⟨fun _ => ⟨[], ⟨none⟩⟩⟩ (some "bb") 1).table :=
    Reachable.add_entry _ 0 1 (some "bb") 1
      (Reachable.create true 0 0 (fun _ => 0) 0 _ (by simp [hash_table_v2_create])) (by decide)
  ⟨hR, (bucket_placement String.length 4 (by decide) "bb").2.2 _ 2 hR⟩

theorem slist_find_append (K : String) (pre post : List list_entry) (e : list_entry)
    (he : e.key = K) (hpre : ∀ x ∈ pre, x.key ≠ K) :
    slist_find K (pre ++ e :: post) = some pre.length ∧
    chain_value K (pre ++ e :: post) = some e.value := by
  induction pre with
  | nil => simp [slist_find, chain_value, he]
  | cons x rest ih =>
    have hx : ¬ x.key = K := hpre x (List.mem_cons_self _ _)
    obtain ⟨h1, h2⟩ := ih (fun y hy => hpre y (List.mem_cons_of_mem _ hy))
    constructor
    · rw [List.cons_append]
      unfold slist_find
      rw [if_neg hx, h1]
      rfl
    · rw [List.cons_append]
      unfold chain_value
      rw [if_neg hx, h2]

/-- C16: for every chain, also one that holds several nodes with the same
key `K`: when the chain is `pre ++ e :: post` with `e` the node of key `K`
nearest the head (no node of `pre` has key `K`, whatever `post` holds), the
scan stops at `e`, `contains(K)` is true and `get_value(K)` returns the value
of `e`; and `contains(K)` is false exactly when no node of the chain has key
`K`. -/
theorem scan_matches_first_entry {μ : Type} (hash : String → Nat) (cap : Nat) (hcap : 0 < cap)
    (T : hash_table_v2 μ cap) (K : String) :
    (∀ (pre post : List list_entry) (e : list_entry),
      (T.entries (bucket hash cap hcap K)).list_head = pre ++ e :: post →
      e.key = K → (∀ x ∈ pre, x.key ≠ K) →
      get_list_entry (some K) (T.entries (bucket hash cap hcap K)).list_head
        = Result.ok (some pre.length) ∧
      hash_table_v2_contains hash cap hcap T (some K) = Result.ok true ∧
      hash_table_v2_get_value hash cap hcap T (some K) = Result.ok e.value) ∧
    (hash_table_v2_contains hash cap hcap T (some K) = Result.ok false ↔
      ∀ e ∈ (T.entries (bucket hash cap hcap K)).list_head, e.key ≠ K) := by
  constructor
  · intro pre post e hl he hpre
    obtain ⟨h1, h2⟩ := slist_find_append K pre post e he hpre
    rw [contains_eq, get_value_eq, hl, h2]
    exact ⟨by simp [get_list_entry, h1], rfl, rfl⟩
  · rw [contains_eq, chain_value_isSome, ← slist_find_none_iff]
    cases slist_find K (T.entries (bucket hash cap hcap K)).list_head <;> simp

/-- Instance of C16: a chain with two nodes of key `"k"`, as two racing
insertions leave it; the lookup returns the value of the one at the head. -/
theorem scan_matches_first_entry_witness :
    0 < 1 ∧
    hash_table_v2_get_value String.length 1 (by decide)
      (⟨fun _ => ⟨[⟨"k", 2⟩, ⟨"k", 1⟩], ⟨none⟩⟩⟩ : hash_table_v2 pthread_mutex_t 1) (some "k")
      = Result.ok 2 :=
  ⟨by decide, ((scan_matches_first_entry String.length 1 (by decide)
    (⟨fun _ => ⟨[⟨"k", 2⟩, ⟨"k", 1⟩], ⟨none⟩⟩⟩ : hash_table_v2 pthread_mutex_t 1) "k").1
      [] [⟨"k", 1⟩] ⟨"k", 2⟩ rfl rfl (by simp)).2.2⟩

/-! ## The lock loop under prescribed return codes -/

theorem scripted_lock (tid : Nat) (s : Nat → Int) :
    scripted.lock tid s = some (s 0, fun n => s (n + 1)) := rfl

theorem scripted_unlock (tid : Nat) (s : Nat → Int) :
    scripted.unlock tid s = (s 0, fun n => s (n + 1)) := rfl

theorem lock_loop_scripted_zero (tid b fuel n : Nat) (s : Nat → Int)
    (hretry : ∀ i, i < n → retried (s i)) (hn : s n = 0) :
    lock_loop scripted tid b (fuel + n + 1) s
      = (Status.returned, fun i => s (i + n + 1), lock_events b (n + 1) s) := by
  induction n generalizing s with
  | zero =>
    show lock_loop scripted tid b (fuel + 1) s = _
    rw [lock_loop]
    simp only [scripted_lock, hn, if_true, lock_events]
  | succ m ih =>
    have h0 := hretry 0 (Nat.succ_pos m)
    have ih' := ih (fun i => s (i + 1)) (fun i hi => hretry (i + 1) (Nat.succ_lt_succ hi)) hn
    show lock_loop scripted tid b ((fuel + m + 1) + 1) s = _
    rw [lock_loop]
    simp only [scripted_lock, if_neg h0.1, if_neg h0.2, ih']
    rfl

theorem lock_loop_scripted_einval (tid b fuel n : Nat) (s : Nat → Int)
    (hretry : ∀ i, i < n → retried (s i)) (hn : s n = EINVAL) :
    lock_loop scripted tid b (fuel + n + 1) s
      = (Status.exited, fun i => s (i + n + 1), lock_events b (n + 1) s) := by
  have hne : ¬ EINVAL = 0 := by decide
  induction n generalizing s with
  | zero =>
    show lock_loop scripted tid b (fuel + 1) s = _
    rw [lock_loop]
    simp only [scripted_lock, hn, hne, if_true, if_false, lock_events]
  | succ m ih =>
    have h0 := hretry 0 (Nat.succ_pos m)
    have ih' := ih (fun i => s (i + 1)) (fun i hi => hretry (i + 1) (Nat.succ_lt_succ hi)) hn
    show lock_loop scripted tid b ((fuel + m + 1) + 1) s = _
    rw [lock_loop]
    simp only [scripted_lock, if_neg h0.1, if_neg h0.2, ih']
    rfl

theorem lock_loop_scripted_spin (tid b n : Nat) (s : Nat → Int)
    (hretry : ∀ i, i < n → retried (s i)) :
    lock_loop scripted tid b n s = (Status.spinning, fun i => s (i + n), lock_events b n s) := by
  induction n generalizing s with
  | zero => rfl
  | succ m ih =>
    have h0 := hretry 0 (Nat.succ_pos m)
    have ih' := ih (fun i => s (i + 1)) (fun i hi => hretry (i + 1) (Nat.succ_lt_succ hi))
    rw [lock_loop]
    simp only [scripted_lock, if_neg h0.1, if_neg h0.2, ih']
    rfl

/-! ## The paths through `hash_table_v2_add_entry` -/

theorem add_entry_first_loop_fails {μ : Type} (P : Pthread μ) (hash : String → Nat) (cap : Nat)
    (hcap : 0 < cap) (tid fuel : Nat) (T : hash_table_v2 μ cap) (K : String) (V : Nat)
    (st : Status) (m1 : μ) (t1 : List Event)
    (h1 : lock_loop P tid (bucket hash cap hcap K) fuel (T.entries (bucket hash cap hcap K)).mutex
      = (st, m1, t1))
    (hst : st ≠ Status.returned) :
    (hash_table_v2_add_entry P hash cap hcap tid fuel T (some K) V).status = st ∧
    (hash_table_v2_add_entry P hash cap hcap tid fuel T (some K) V).trace = t1 := by
  unfold hash_table_v2_add_entry
  simp only [get_hash_table_entry_some, h1]
  cases st <;> simp at hst ⊢

theorem add_entry_first_loop_fails_table {μ : Type} (P : Pthread μ) (hash : String → Nat)
    (cap : Nat) (hcap : 0 < cap) (tid fuel : Nat) (T : hash_table_v2 μ cap) (K : String) (V : Nat)
    (st : Status) (m1 : μ) (t1 : List Event)
    (h1 : lock_loop P tid (bucket hash cap hcap K) fuel (T.entries (bucket hash cap hcap K)).mutex
      = (st, m1, t1))
    (hst : st ≠ Status.returned) :
    (hash_table_v2_add_entry P hash cap hcap tid fuel T (some K) V).table
      = T.set_mutex (bucket hash cap hcap K) m1 := by
  unfold hash_table_v2_add_entry
  simp only [get_hash_table_entry_some, h1]

theorem add_entry_found {μ : Type} (P : Pthread μ) (hash : String → Nat) (cap : Nat)
    (hcap : 0 < cap) (tid fuel i : Nat) (T : hash_table_v2 μ cap) (K : String) (V : Nat)
    (m1 : μ) (t1 : List Event)
    (h1 : lock_loop P tid (bucket hash cap hcap K) fuel (T.entries (bucket hash cap hcap K)).mutex
      = (Status.returned, m1, t1))
    (hfind : slist_find K (T.entries (bucket hash cap hcap K)).list_head = some i) :
    (hash_table_v2_add_entry P hash cap hcap tid fuel T (some K) V).status
      = (if (P.unlock tid m1).1 ≠ 0 then Status.exited else Status.returned) ∧
    (hash_table_v2_add_entry P hash cap hcap tid fuel T (some K) V).trace
      = t1 ++ [Event.scan (bucket hash cap hcap K), Event.store (bucket hash cap hcap K),
          Event.unlock (bucket hash cap hcap K) (P.unlock tid m1).1] := by
  unfold hash_table_v2_add_entry
  simp only [get_hash_table_entry_some, h1, get_list_entry, set_mutex_same, set_list_same, hfind,
    and_self]

theorem add_entry_absent_unlock_fails {μ : Type} (P : Pthread μ) (hash : String → Nat)
    (cap : Nat) (hcap : 0 < cap) (tid fuel : Nat) (T : hash_table_v2 μ cap) (K : String) (V : Nat)
    (m1 : μ) (t1 : List Event)
    (h1 : lock_loop P tid (bucket hash cap hcap K) fuel (T.entries (bucket hash cap hcap K)).mutex
      = (Status.returned, m1, t1))
    (hfind : slist_find K (T.entries (bucket hash cap hcap K)).list_head = none)
    (hu : (P.unlock tid m1).1 ≠ 0) :
    (hash_table_v2_add_entry P hash cap hcap tid fuel T (some K) V).status = Status.exited ∧
    (hash_table_v2_add_entry P hash cap hcap tid fuel T (some K) V).trace
      = t1 ++ [Event.scan (bucket hash cap hcap K),
          Event.unlock (bucket hash cap hcap K) (P.unlock tid m1).1] := by
  unfold hash_table_v2_add_entry
  simp only [get_hash_table_entry_some, h1, get_list_entry, set_mutex_same, hfind]
  rw [if_pos hu]
  exact ⟨rfl, rfl⟩

theorem add_entry_second_loop_fails {μ : Type} (P : Pthread μ) (hash : String → Nat)
    (cap : Nat) (hcap : 0 < cap) (tid fuel : Nat) (T : hash_table_v2 μ cap) (K : String) (V : Nat)
    (m1 m3 : μ) (t1 t3 : List Event) (st : Status)
    (h1 : lock_loop P tid (bucket hash cap hcap K) fuel (T.entries (bucket hash cap hcap K)).mutex
      = (Status.returned, m1, t1))
    (hfind : slist_find K (T.entries (bucket hash cap hcap K)).list_head = none)
    (hu : (P.unlock tid m1).1 = 0)
    (h2 : lock_loop P tid (bucket hash cap hcap K) fuel (P.unlock tid m1).2 = (st, m3, t3))
    (hst : st ≠ Status.returned) :
    (hash_table_v2_add_entry P hash cap hcap tid fuel T (some K) V).status = st ∧
    (hash_table_v2_add_entry P hash cap hcap tid fuel T (some K) V).trace
      = t1 ++ [Event.scan (bucket hash cap hcap K),
          Event.unlock (bucket hash cap hcap K) (P.unlock tid m1).1] ++ t3 := by
  unfold hash_table_v2_add_entry
  simp only [get_hash_table_entry_some, h1, get_list_entry, set_mutex_same, hfind]
  rw [if_neg (by simp [hu])]
  simp only [h2]
  cases st <;> simp at hst ⊢

theorem add_entry_inserted {μ : Type} (P : Pthread μ) (hash : String → Nat)
    (cap : Nat) (hcap : 0 < cap) (tid fuel : Nat) (T : hash_table_v2 μ cap) (K : String) (V : Nat)
    (m1 m3 : μ) (t1 t3 : List Event)
    (h1 : lock_loop P tid (bucket hash cap hcap K) fuel (T.entries (bucket hash cap hcap K)).mutex
      = (Status.returned, m1, t1))
    (hfind : slist_find K (T.entries (bucket hash cap hcap K)).list_head = none)
    (hu : (P.unlock tid m1).1 = 0)
    (h2 : lock_loop P tid (bucket hash cap hcap K) fuel (P.unlock tid m1).2
      = (Status.returned, m3, t3)) :
    (hash_table_v2_add_entry P hash cap hcap tid fuel T (some K) V).status
      = (if (P.unlock tid m3).1 ≠ 0 then Status.exited else Status.returned) ∧
    (hash_table_v2_add_entry P hash cap hcap tid fuel T (some K) V).trace
      = t1 ++ [Event.scan (bucket hash cap hcap K),
          Event.unlock (bucket hash cap hcap K) (P.unlock tid m1).1] ++ t3 ++
        [Event.insert_head (bucket hash cap hcap K),
          Event.unlock (bucket hash cap hcap K) (P.unlock tid m3).1] := by
  unfold hash_table_v2_add_entry
  simp only [get_hash_table_entry_some, h1, get_list_entry, set_mutex_same, hfind]
  rw [if_neg (by simp [hu])]
  simp only [h2, set_mutex_same, set_list_same, and_self]

/-! ## Lock errors -/

theorem scripted_first_loop (tid b fuel n : Nat) (s : Nat → Int) (hn : n < fuel)
    (hretry : ∀ i, i < n → retried (s i)) :
    (s n = 0 → lock_loop scripted tid b fuel s
      = (Status.returned, fun i => s (i + n + 1), lock_events b (n + 1) s)) ∧
    (s n = EINVAL → lock_loop scripted tid b fuel s
      = (Status.exited, fun i => s (i + n + 1), lock_events b (n + 1) s)) := by
  obtain ⟨k, hk⟩ : ∃ k, fuel = k + n + 1 := ⟨fuel - n - 1, by omega⟩
  subst hk
  exact ⟨lock_loop_scripted_zero tid b k n s hretry, lock_loop_scripted_einval tid b k n s hretry⟩

theorem scripted_shift (s : Nat → Int) (n : Nat) :
    (fun j => s (j + 1 + n + 1)) = fun i => s (n + 2 + i) :=
  funext (fun i => congrArg s (by omega))

theorem scripted_first_acquire (hash : String → Nat) (cap : Nat) (hcap : 0 < cap) (tid : Nat)
    (T : hash_table_v2 (Nat → Int) cap) (K : String) (V : Nat) (s : Nat → Int)
    (hs : (T.entries (bucket hash cap hcap K)).mutex = s) :
    (∀ fuel, (∀ i, i < fuel → retried (s i)) →
      (hash_table_v2_add_entry scripted hash cap hcap tid fuel T (some K) V).status
        = Status.spinning ∧
      (hash_table_v2_add_entry scripted hash cap hcap tid fuel T (some K) V).trace
        = lock_events (bucket hash cap hcap K) fuel s) ∧
    (∀ n fuel, n < fuel → (∀ i, i < n → retried (s i)) → s n = EINVAL →
      (hash_table_v2_add_entry scripted hash cap hcap tid fuel T (some K) V).status
        = Status.exited ∧
      (hash_table_v2_add_entry scripted hash cap hcap tid fuel T (some K) V).trace
        = lock_events (bucket hash cap hcap K) (n + 1) s) := by
  subst hs
  constructor
  · intro fuel hretry
    exact add_entry_first_loop_fails scripted hash cap hcap tid fuel T K V _ _ _
      (lock_loop_scripted_spin tid _ fuel _ hretry) (by decide)
  · intro n fuel hn hretry hE
    exact add_entry_first_loop_fails scripted hash cap hcap tid fuel T K V _ _ _
      ((scripted_first_loop tid _ fuel n _ hn hretry).2 hE) (by decide)

theorem scripted_first_unlock (hash : String → Nat) (cap : Nat) (hcap : 0 < cap) (tid : Nat)
    (T : hash_table_v2 (Nat → Int) cap) (K : String) (V : Nat) (s : Nat → Int)
    (hs : (T.entries (bucket hash cap hcap K)).mutex = s)
    (n fuel : Nat) (hn : n < fuel) (hretry : ∀ i, i < n → retried (s i)) (h0 : s n = 0) :
    (∀ i, slist_find K (T.entries (bucket hash cap hcap K)).list_head = some i →
      (hash_table_v2_add_entry scripted hash cap hcap tid fuel T (some K) V).status
        = (if s (n + 1) ≠ 0 then Status.exited else Status.returned) ∧
      (hash_table_v2_add_entry scripted hash cap hcap tid fuel T (some K) V).trace
        = lock_events (bucket hash cap hcap K) (n + 1) s ++
          [Event.scan (bucket hash cap hcap K), Event.store (bucket hash cap hcap K),
            Event.unlock (bucket hash cap hcap K) (s (n + 1))]) ∧
    (slist_find K (T.entries (bucket hash cap hcap K)).list_head = none → s (n + 1) ≠ 0 →
      (hash_table_v2_add_entry scripted hash cap hcap tid fuel T (some K) V).status
        = Status.exited ∧
      (hash_table_v2_add_entry scripted hash cap hcap tid fuel T (some K) V).trace
        = lock_events (bucket hash cap hcap K) (n + 1) s ++
          [Event.scan (bucket hash cap hcap K),
            Event.unlock (bucket hash cap hcap K) (s (n + 1))]) := by
  subst hs
  have h1 := (scripted_first_loop tid (bucket hash cap hcap K) fuel n _ hn hretry).1 h0
  constructor
  · intro i hfind
    have h := add_entry_found scripted hash cap hcap tid fuel i T K V _ _ h1 hfind
    simpa [scripted_unlock] using h
  · intro hfind hu
    have h := add_entry_absent_unlock_fails scripted hash cap hcap tid fuel T K V _ _ h1 hfind
      (by simpa [scripted_unlock] using hu)
    simpa [scripted_unlock] using h

theorem scripted_second_acquire (hash : String → Nat) (cap : Nat) (hcap : 0 < cap) (tid : Nat)
    (T : hash_table_v2 (Nat → Int) cap) (K : String) (V : Nat) (s : Nat → Int)
    (hs : (T.entries (bucket hash cap hcap K)).mutex = s)
    (n fuel : Nat) (hn : n < fuel) (hretry : ∀ i, i < n → retried (s i)) (h0 : s n = 0)
    (habs : slist_find K (T.entries (bucket hash cap hcap K)).list_head = none)
    (hu : s (n + 1) = 0) :
    ((∀ i, i < fuel → retried (s (n + 2 + i))) →
      (hash_table_v2_add_entry scripted hash cap hcap tid fuel T (some K) V).status
        = Status.spinning ∧
      (hash_table_v2_add_entry scripted hash cap hcap tid fuel T (some K) V).trace
        = lock_events (bucket hash cap hcap K) (n + 1) s ++
          [Event.scan (bucket hash cap hcap K),
            Event.unlock (bucket hash cap hcap K) (s (n + 1))] ++
          lock_events (bucket hash cap hcap K) fuel (fun i => s (n + 2 + i))) ∧
    (∀ m, m < fuel → (∀ i, i < m → retried (s (n + 2 + i))) → s (n + 2 + m) = EINVAL →
      (hash_table_v2_add_entry scripted hash cap hcap tid fuel T (some K) V).status
        = Status.exited ∧
      (hash_table_v2_add_entry scripted hash cap hcap tid fuel T (some K) V).trace
        = lock_events (bucket hash cap hcap K) (n + 1) s ++
          [Event.scan (bucket hash cap hcap K),
            Event.unlock (bucket hash cap hcap K) (s (n + 1))] ++
          lock_events (bucket hash cap hcap K) (m + 1) (fun i => s (n + 2 + i))) ∧
    (∀ m, m < fuel → (∀ i, i < m → retried (s (n + 2 + i))) → s (n + 2 + m) = 0 →
      (hash_table_v2_add_entry scripted hash cap hcap tid fuel T (some K) V).status
        = (if s (n + 3 + m) ≠ 0 then Status.exited else Status.returned) ∧
      (hash_table_v2_add_entry scripted hash cap hcap tid fuel T (some K) V).trace
        = lock_events (bucket hash cap hcap K) (n + 1) s ++
          [Event.scan (bucket hash cap hcap K),
            Event.unlock (bucket hash cap hcap K) (s (n + 1))] ++
          lock_events (bucket hash cap hcap K) (m + 1) (fun i => s (n + 2 + i)) ++
          [Event.insert_head (bucket hash cap hcap K),
            Event.unlock (bucket hash cap hcap K) (s (n + 3 + m))]) := by
  subst hs
  have h1 := (scripted_first_loop tid (bucket hash cap hcap K) fuel n _ hn hretry).1 h0
  have hu' : (scripted.unlock tid
      (fun i => (T.entries (bucket hash cap hcap K)).mutex (i + n + 1))).1 = 0 := by
    simpa [scripted_unlock] using hu
  have hm1 : (scripted.unlock tid
      (fun i => (T.entries (bucket hash cap hcap K)).mutex (i + n + 1))).2
      = fun i => (T.entries (bucket hash cap hcap K)).mutex (n + 2 + i) :=
    scripted_shift _ n
  have hu1 : (scripted.unlock tid
      (fun i => (T.entries (bucket hash cap hcap K)).mutex (i + n + 1))).1
      = (T.entries (bucket hash cap hcap K)).mutex (n + 1) := by
    simp [scripted_unlock]
  refine ⟨fun hspin => ?_, fun m hm hretry2 hE => ?_, fun m hm hretry2 hZ => ?_⟩
  · have h2 := lock_loop_scripted_spin tid (bucket hash cap hcap K) fuel _ hspin
    rw [← hm1] at h2
    have h := add_entry_second_loop_fails scripted hash cap hcap tid fuel T K V _ _ _ _ _
      h1 habs hu' h2 (by decide)
    rw [hu1, hm1] at h
    exact h
  · have h2 := (scripted_first_loop tid (bucket hash cap hcap K) fuel m _ hm hretry2).2 hE
    rw [← hm1] at h2
    have h := add_entry_second_loop_fails scripted hash cap hcap tid fuel T K V _ _ _ _ _
      h1 habs hu' h2 (by decide)
    rw [hu1, hm1] at h
    exact h
  · have h2 := (scripted_first_loop tid (bucket hash cap hcap K) fuel m _ hm hretry2).1 hZ
    rw [← hm1] at h2
    have h := add_entry_inserted scripted hash cap hcap tid fuel T K V _ _ _ _
      h1 habs hu' h2
    rw [hu1, hm1] at h
    have hu3 : (scripted.unlock tid
        (fun i => (T.entries (bucket hash cap hcap K)).mutex (n + 2 + (i + m + 1)))).1
        = (T.entries (bucket hash cap hcap K)).mutex (n + 3 + m) := by
      simp only [scripted_unlock]
      exact congrArg _ (by omega)
    rw [hu3] at h
    exact h

/-- C17: lock-error classification in `add_entry`, the calls on the bucket
mutex returning the prescribed codes `s 0, s 1, ...` in order, for every such
sequence. At either lock loop, codes other than `0` and `EINVAL` are retried:
after `n` of them the loop has made `n` calls and calls again, for every `n`,
and a sequence of such codes only keeps the loop running for as long as it is
observed. A lock-acquire returning `EINVAL` ends the process at that call. A
lock-acquire returning `0` proceeds: to the scan after the first loop, to the
insertion after the second. At each of the three unlocks a non-zero code ends
the process and `0` lets the call go on (return on the update and insert
paths, go to the second loop after the first critical section). -/
theorem lock_error_classification (hash : String → Nat) (cap : Nat) (hcap : 0 < cap)
    (tid : Nat) (T : hash_table_v2 (Nat → Int) cap) (K : String) (V : Nat) (s : Nat → Int)
    (hs : (T.entries (bucket hash cap hcap K)).mutex = s) :
    (∀ fuel, (∀ i, i < fuel → retried (s i)) →
      (hash_table_v2_add_entry scripted hash cap hcap tid fuel T (some K) V).status = Status.spinning ∧
      (hash_table_v2_add_entry scripted hash cap hcap tid fuel T (some K) V).trace = lock_events (bucket hash cap hcap K) fuel s) ∧
    (∀ n fuel, n < fuel → (∀ i, i < n → retried (s i)) → s n = EINVAL →
      (hash_table_v2_add_entry scripted hash cap hcap tid fuel T (some K) V).status = Status.exited ∧
      (hash_table_v2_add_entry scripted hash cap hcap tid fuel T (some K) V).trace = lock_events (bucket hash cap hcap K) (n + 1) s) ∧
    (∀ n fuel i, n < fuel → (∀ i, i < n → retried (s i)) → s n = 0 →
      slist_find K (T.entries (bucket hash cap hcap K)).list_head = some i →
      (hash_table_v2_add_entry scripted hash cap hcap tid fuel T (some K) V).status = (if s (n + 1) ≠ 0 then Status.exited else Status.returned) ∧
      (hash_table_v2_add_entry scripted hash cap hcap tid fuel T (some K) V).trace = lock_events (bucket hash cap hcap K) (n + 1) s ++
        [Event.scan (bucket hash cap hcap K), Event.store (bucket hash cap hcap K), Event.unlock (bucket hash cap hcap K) (s (n + 1))]) ∧
    (∀ n fuel, n < fuel → (∀ i, i < n → retried (s i)) → s n = 0 →
      slist_find K (T.entries (bucket hash cap hcap K)).list_head = none → s (n + 1) ≠ 0 →
      (hash_table_v2_add_entry scripted hash cap hcap tid fuel T (some K) V).status = Status.exited ∧
      (hash_table_v2_add_entry scripted hash cap hcap tid fuel T (some K) V).trace = lock_events (bucket hash cap hcap K) (n + 1) s ++ [Event.scan (bucket hash cap hcap K), Event.unlock (bucket hash cap hcap K) (s (n + 1))]) ∧
    (∀ n fuel, n < fuel → (∀ i, i < n → retried (s i)) → s n = 0 →
      slist_find K (T.entries (bucket hash cap hcap K)).list_head = none → s (n + 1) = 0 →
      (∀ i, i < fuel → retried (s (n + 2 + i))) →
      (hash_table_v2_add_entry scripted hash cap hcap tid fuel T (some K) V).status = Status.spinning ∧
      (hash_table_v2_add_entry scripted hash cap hcap tid fuel T (some K) V).trace = lock_events (bucket hash cap hcap K) (n + 1) s ++ [Event.scan (bucket hash cap hcap K), Event.unlock (bucket hash cap hcap K) (s (n + 1))] ++
        lock_events (bucket hash cap hcap K) fuel (fun i => s (n + 2 + i))) ∧
    (∀ n m fuel, n < fuel → (∀ i, i < n → retried (s i)) → s n = 0 →
      slist_find K (T.entries (bucket hash cap hcap K)).list_head = none → s (n + 1) = 0 →
      m < fuel → (∀ i, i < m → retried (s (n + 2 + i))) → s (n + 2 + m) = EINVAL →
      (hash_table_v2_add_entry scripted hash cap hcap tid fuel T (some K) V).status = Status.exited ∧
      (hash_table_v2_add_entry scripted hash cap hcap tid fuel T (some K) V).trace = lock_events (bucket hash cap hcap K) (n + 1) s ++ [Event.scan (bucket hash cap hcap K), Event.unlock (bucket hash cap hcap K) (s (n + 1))] ++
        lock_events (bucket hash cap hcap K) (m + 1) (fun i => s (n + 2 + i))) ∧
    (∀ n m fuel, n < fuel → (∀ i, i < n → retried (s i)) → s n = 0 →
      slist_find K (T.entries (bucket hash cap hcap K)).list_head = none → s (n + 1) = 0 →
      m < fuel → (∀ i, i < m → retried (s (n + 2 + i))) → s (n + 2 + m) = 0 →
      (hash_table_v2_add_entry scripted hash cap hcap tid fuel T (some K) V).status = (if s (n + 3 + m) ≠ 0 then Status.exited else Status.returned) ∧
      (hash_table_v2_add_entry scripted hash cap hcap tid fuel T (some K) V).trace = lock_events (bucket hash cap hcap K) (n + 1) s ++ [Event.scan (bucket hash cap hcap K), Event.unlock (bucket hash cap hcap K) (s (n + 1))] ++
        lock_events (bucket hash cap hcap K) (m + 1) (fun i => s (n + 2 + i)) ++
        [Event.insert_head (bucket hash cap hcap K), Event.unlock (bucket hash cap hcap K) (s (n + 3 + m))]) := by
  refine ⟨?_, ?_, ?_, ?_, ?_, ?_, ?_⟩
  · exact (scripted_first_acquire hash cap hcap tid T K V s hs).1
  · exact (scripted_first_acquire hash cap hcap tid T K V s hs).2
  · intro n fuel i hn hr h0 hfind
    exact (scripted_first_unlock hash cap hcap tid T K V s hs n fuel hn hr h0).1 i hfind
  · intro n fuel hn hr h0 habs hu
    exact (scripted_first_unlock hash cap hcap tid T K V s hs n fuel hn hr h0).2 habs hu
  · intro n fuel hn hr h0 habs hu hspin
    exact (scripted_second_acquire hash cap hcap tid T K V s hs n fuel hn hr h0 habs hu).1 hspin
  · intro n m fuel hn hr h0 habs hu hm hr2 hE
    exact (scripted_second_acquire hash cap hcap tid T K V s hs n fuel hn hr h0 habs hu).2.1
      m hm hr2 hE
  · intro n m fuel hn hr h0 habs hu hm hr2 hZ
    exact (scripted_second_acquire hash cap hcap tid T K V s hs n fuel hn hr h0 habs hu).2.2
      m hm hr2 hZ

/-- Instance of C17: the first lock-acquire returns `11` (`EAGAIN`), the
second `EINVAL`; the call retries once and then ends the process. -/
theorem lock_error_classification_witness :
    ((⟨fun _ => ⟨[], fun i => if i = 0 then 11 else 22⟩⟩ : hash_table_v2 (Nat → Int) 4).entries
      (bucket String.length 4 (by decide) "a")).mutex = (fun i => if i = 0 then 11 else 22) ∧
    (∀ i, i < 1 → retried ((fun i => if i = 0 then (11 : Int) else 22) i)) ∧
    (fun i => if i = 0 then (11 : Int) else 22) 1 = EINVAL ∧
    (hash_table_v2_add_entry scripted String.length 4 (by decide) 0 2
      (⟨fun _ => ⟨[], fun i => if i = 0 then 11 else 22⟩⟩ : hash_table_v2 (Nat → Int) 4)
      (some "a") 1).status = Status.exited :=
  have hr : ∀ i, i < 1 → retried ((fun i => if i = 0 then (11 : Int) else 22) i) := by
    intro i hi
    have : i = 0 := by omega
    subst this
    exact ⟨by decide, by decide⟩
  ⟨rfl, hr, rfl,
    ((lock_error_classification String.length 4 (by decide) 0
      (⟨fun _ => ⟨[], fun i => if i = 0 then 11 else 22⟩⟩ : hash_table_v2 (Nat → Int) 4)
      "a" 1 (fun i => if i = 0 then 11 else 22) rfl).2.1 1 2 (by decide) hr rfl).1⟩

/-! ## Relocking a mutex the caller holds -/

theorem lock_loop_relock (tid b fuel : Nat) :
    lock_loop errorcheck tid b fuel ⟨some tid⟩
      = (Status.spinning, ⟨some tid⟩, List.replicate fuel (Event.lock b EDEADLK)) := by
  induction fuel with
  | zero => rfl
  | succ n ih =>
    have h0 : ¬ EDEADLK = 0 := by decide
    have h1 : ¬ EDEADLK = EINVAL := by decide
    rw [lock_loop]
    simp only [errorcheck, pthread_mutex_lock, if_true, if_neg h0, if_neg h1]
    have ih' : lock_loop ⟨pthread_mutex_lock, pthread_mutex_unlock⟩ tid b n ⟨some tid⟩
        = (Status.spinning, ⟨some tid⟩, List.replicate n (Event.lock b EDEADLK)) := ih
    rw [ih']
    rfl

theorem add_entry_relock (hash : String → Nat) (cap : Nat) (hcap : 0 < cap) (tid fuel : Nat)
    (T : hash_table_v2 pthread_mutex_t cap) (K : String) (V : Nat)
    (hheld : (T.entries (bucket hash cap hcap K)).mutex = ⟨some tid⟩) :
    (hash_table_v2_add_entry errorcheck hash cap hcap tid fuel T (some K) V).status
      = Status.spinning ∧
    (hash_table_v2_add_entry errorcheck hash cap hcap tid fuel T (some K) V).trace
      = List.replicate fuel (Event.lock (bucket hash cap hcap K) EDEADLK) := by
  have h1 : lock_loop errorcheck tid (bucket hash cap hcap K) fuel
      (T.entries (bucket hash cap hcap K)).mutex
      = (Status.spinning, ⟨some tid⟩,
        List.replicate fuel (Event.lock (bucket hash cap hcap K) EDEADLK)) := by
    rw [hheld]
    exact lock_loop_relock tid _ fuel
  exact add_entry_first_loop_fails errorcheck hash cap hcap tid fuel T K V _ _ _ h1 (by decide)

/-- C18 does not hold as stated: thread `0` holds the mutex of the bucket of
`"a"` and calls `add_entry("a", 1)`. The lock-acquire returns the double-lock
code `EDEADLK`, and the call does not end the process: with room for three
iterations it has made three lock calls, each returning `EDEADLK`, and is
still in the loop, and no number of iterations brings it to `exit`. -/
theorem relock_is_not_fatal :
    pthread_mutex_lock 0 ⟨some 0⟩ = some (EDEADLK, ⟨some 0⟩) ∧
    (hash_table_v2_add_entry errorcheck String.length 4 (by decide) 0 3
      (⟨fun _ => ⟨[], ⟨some 0⟩⟩⟩ : hash_table_v2 pthread_mutex_t 4) (some "a") 1).status
      = Status.spinning ∧
    (hash_table_v2_add_entry errorcheck String.length 4 (by decide) 0 3
      (⟨fun _ => ⟨[], ⟨some 0⟩⟩⟩ : hash_table_v2 pthread_mutex_t 4) (some "a") 1).trace
      = [Event.lock 1 35, Event.lock 1 35, Event.lock 1 35] ∧
    ¬ ∃ fuel, (hash_table_v2_add_entry errorcheck String.length 4 (by decide) 0 fuel
      (⟨fun _ => ⟨[], ⟨some 0⟩⟩⟩ : hash_table_v2 pthread_mutex_t 4) (some "a") 1).status
      = Status.exited := by
  refine ⟨rfl, by decide, by decide, ?_⟩
  rintro ⟨fuel, h⟩
  rw [(add_entry_relock String.length 4 (by decide) 0 fuel
    (⟨fun _ => ⟨[], ⟨some 0⟩⟩⟩ : hash_table_v2 pthread_mutex_t 4) "a" 1 rfl).1] at h
  cases h

/-- C18, amended: when the calling thread already holds the bucket mutex, so
that the lock-acquire of `add_entry` on the error-checking mutex returns the
double-lock code `EDEADLK`, `add_entry` does not end the process: it calls
`pthread_mutex_lock` again, gets the same code each time, and is still in its
first lock loop after any number of iterations, having scanned and changed
no chain. -/
theorem relock_is_retried (hash : String → Nat) (cap : Nat) (hcap : 0 < cap) (tid : Nat)
    (T : hash_table_v2 pthread_mutex_t cap) (K : String) (V : Nat)
    (hheld : (T.entries (bucket hash cap hcap K)).mutex = ⟨some tid⟩) :
    pthread_mutex_lock tid (T.entries (bucket hash cap hcap K)).mutex
      = some (EDEADLK, (T.entries (bucket hash cap hcap K)).mutex) ∧
    ∀ fuel,
      (hash_table_v2_add_entry errorcheck hash cap hcap tid fuel T (some K) V).status
        = Status.spinning ∧
      (hash_table_v2_add_entry errorcheck hash cap hcap tid fuel T (some K) V).status
        ≠ Status.exited ∧
      (hash_table_v2_add_entry errorcheck hash cap hcap tid fuel T (some K) V).trace
        = List.replicate fuel (Event.lock (bucket hash cap hcap K) EDEADLK) ∧
      ∀ j, ((hash_table_v2_add_entry errorcheck hash cap hcap tid fuel T (some K) V).table.entries
        j).list_head = (T.entries j).list_head := by
  constructor
  · rw [hheld]
    simp [pthread_mutex_lock]
  · intro fuel
    have h := add_entry_relock hash cap hcap tid fuel T K V hheld
    refine ⟨h.1, by rw [h.1]; decide, h.2, fun j => ?_⟩
    have h1 : lock_loop errorcheck tid (bucket hash cap hcap K) fuel
        (T.entries (bucket hash cap hcap K)).mutex
        = (Status.spinning, ⟨some tid⟩,
          List.replicate fuel (Event.lock (bucket hash cap hcap K) EDEADLK)) := by
      rw [hheld]
      exact lock_loop_relock tid _ fuel
    rw [add_entry_first_loop_fails_table errorcheck hash cap hcap tid fuel T K V _ _ _ h1
      (by decide)]
    by_cases hj : j = bucket hash cap hcap K
    · subst hj; simp
    · rw [set_mutex_other _ _ _ _ hj]

/-- Instance of C18 amended: every mutex of a table of four buckets is held
by thread `0`, which calls `add_entry("a", 1)`. -/
theorem relock_is_retried_witness :
    ((⟨fun _ => ⟨[], ⟨some 0⟩⟩⟩ : hash_table_v2 pthread_mutex_t 4).entries
      (bucket String.length 4 (by decide) "a")).mutex = ⟨some 0⟩ ∧
    (hash_table_v2_add_entry errorcheck String.length 4 (by decide) 0 5
      (⟨fun _ => ⟨[], ⟨some 0⟩⟩⟩ : hash_table_v2 pthread_mutex_t 4) (some "a") 1).status
      = Status.spinning :=
  ⟨rfl, ((relock_is_retried String.length 4 (by decide) 0
    (⟨fun _ => ⟨[], ⟨some 0⟩⟩⟩ : hash_table_v2 pthread_mutex_t 4) "a" 1 rfl).2 5).1⟩

/-! ## Lock balance -/

theorem contains_exec_no_mutex_call {μ : Type} (hash : String → Nat) (cap : Nat) (hcap : 0 < cap)
    (T : hash_table_v2 μ cap) (key : Option String) :
    ∀ ev ∈ (hash_table_v2_contains_exec hash cap hcap T key).trace, ev.is_mutex_call = false := by
  unfold hash_table_v2_contains_exec
  split
  · simp
  · split <;> simp [Event.is_mutex_call]

theorem get_value_exec_no_mutex_call {μ : Type} (hash : String → Nat) (cap : Nat)
    (hcap : 0 < cap) (T : hash_table_v2 μ cap) (key : Option String) :
    ∀ ev ∈ (hash_table_v2_get_value_exec hash cap hcap T key).trace,
      ev.is_mutex_call = false := by
  unfold hash_table_v2_get_value_exec
  split
  · simp
  · split
    · simp
    · simp [Event.is_mutex_call]
    · split <;> simp [Event.is_mutex_call]

/-- The discipline check is not vacuous: it rejects a second acquire while the
mutex is held, a scan without the mutex, a release without the mutex, and a
failed call, and it reports a mutex left held. -/
theorem lock_discipline_rejects :
    lock_discipline false [Event.lock 0 0, Event.lock 0 0] = none ∧
    lock_discipline false [Event.scan 0] = none ∧
    lock_discipline false [Event.insert_head 0] = none ∧
    lock_discipline false [Event.unlock 0 0] = none ∧
    lock_discipline false [Event.lock 0 35] = none ∧
    lock_discipline false [Event.lock 0 0, Event.scan 0] = some true := by
  decide

/-- C19: lock balance of `add_entry` on the error-checking mutex, called with
the bucket mutex free. The call returns; its calls are, in order, lock, scan,
store, unlock on the update path and lock, scan, unlock, lock, insertion,
unlock on the insert path, all on the key's bucket and every mutex call
returning `0`; so it never acquires the mutex while holding it, it scans,
stores and inserts only while holding it, and it has released it when it
returns (the discipline check ends not held, and the mutex of the bucket is
free in the table it leaves). `contains` and `get_value` make no mutex call
and leave every mutex as it was. -/
theorem lock_balance (hash : String → Nat) (cap : Nat) (hcap : 0 < cap) (tid fuel : Nat)
    (T : hash_table_v2 pthread_mutex_t cap) (K : String) (V : Nat)
    (hfree : (T.entries (bucket hash cap hcap K)).mutex = ⟨none⟩) :
    (hash_table_v2_add_entry errorcheck hash cap hcap tid (fuel + 1) T (some K) V).status
      = Status.returned ∧
    (hash_table_v2_add_entry errorcheck hash cap hcap tid (fuel + 1) T (some K) V).trace
      = (match slist_find K (T.entries (bucket hash cap hcap K)).list_head with
        | some _ =>
          [Event.lock (bucket hash cap hcap K) 0, Event.scan (bucket hash cap hcap K),
            Event.store (bucket hash cap hcap K), Event.unlock (bucket hash cap hcap K) 0]
        | none =>
          [Event.lock (bucket hash cap hcap K) 0, Event.scan (bucket hash cap hcap K),
            Event.unlock (bucket hash cap hcap K) 0, Event.lock (bucket hash cap hcap K) 0,
            Event.insert_head (bucket hash cap hcap K), Event.unlock (bucket hash cap hcap K) 0]) ∧
    lock_discipline false
      (hash_table_v2_add_entry errorcheck hash cap hcap tid (fuel + 1) T (some K) V).trace
      = some false ∧
    ((hash_table_v2_add_entry errorcheck hash cap hcap tid (fuel + 1) T (some K) V).table.entries
      (bucket hash cap hcap K)).mutex = ⟨none⟩ ∧
    (∀ key, ∀ ev ∈ (hash_table_v2_contains_exec hash cap hcap T key).trace,
      ev.is_mutex_call = false) ∧
    (∀ key, ∀ ev ∈ (hash_table_v2_get_value_exec hash cap hcap T key).trace,
      ev.is_mutex_call = false) ∧
    (∀ key j, ((hash_table_v2_contains_exec hash cap hcap T key).table.entries j).mutex
      = (T.entries j).mutex) ∧
    (∀ key j, ((hash_table_v2_get_value_exec hash cap hcap T key).table.entries j).mutex
      = (T.entries j).mutex) := by
  have h := add_entry_free hash cap hcap tid fuel T K V hfree
  have ht := add_entry_free_trace hash cap hcap tid fuel T K V hfree
  refine ⟨h.1, ht, ?_, ?_, contains_exec_no_mutex_call hash cap hcap T,
    get_value_exec_no_mutex_call hash cap hcap T, fun key j => ?_, fun key j => ?_⟩
  · rw [ht]
    cases slist_find K (T.entries (bucket hash cap hcap K)).list_head <;>
      simp [lock_discipline]
  · rw [h.2, set_list_same]
    exact hfree
  · rw [contains_exec_table]
  · rw [get_value_exec_table]

/-- Instance of C19: `add_entry("a", 5)` on a free table whose buckets hold
`"b"`; the insert path. -/
theorem lock_balance_witness :
    ((⟨fun _ => ⟨[⟨"b", 7⟩], ⟨none⟩⟩⟩ : hash_table_v2 pthread_mutex_t 4).entries
      (bucket String.length 4 (by decide) "a")).mutex = ⟨none⟩ ∧
    lock_discipline false
      (hash_table_v2_add_entry errorcheck String.length 4 (by decide) 0 1
        (⟨fun _ => ⟨[⟨"b", 7⟩], ⟨none⟩⟩⟩ : hash_table_v2 pthread_mutex_t 4) (some "a") 5).trace
      = some false :=
  ⟨rfl, (lock_balance String.length 4 (by decide) 0 0
    (⟨fun _ => ⟨[⟨"b", 7⟩], ⟨none⟩⟩⟩ : hash_table_v2 pthread_mutex_t 4) "a" 5 rfl).2.2.1⟩

end HashTableV2
